import Mathlib

/-!
Verification development for the shodohflo binary ingestion pipeline.

This file shallowly embeds the two core modules of the repository:

* `shodohflo/fstrm.py` — the Frame Streams reassembler / handshake driver
  (`DataProcessor` with `append`, `read_size`, `frame_ready`,
  `content_type_payload`, `process_frame`);
* `shodohflo/protobuf/protobuf.py` — the generic protobuf wire decoder
  (`get_varint`, `get_field_header`, `svi2si`, `m2i`, `getfield`,
  `do_dissect`).

Byte strings are modeled as `List Nat` (every element is a byte value,
`< 256`, whenever the value originated from a Python `bytes` object).
Python exceptions are modeled as explicit error values.  Stateful methods
become functions from the object state to a pair of result and new state.
-/

namespace Shodohflo

/-! ## Byte-level helpers -/

/-- Embeds Python `int.from_bytes(l, byteorder='big', signed=False)`:
big-endian accumulation of a byte string into a natural number. -/
def fromBytesBE (l : List Nat) : Nat :=
  l.foldl (fun a b => a * 256 + b) 0

/-- Embeds Python `n.to_bytes(4, byteorder='big', signed=False)`.  Every
call site in `fstrm.py` passes a value below `2 ^ 32`. -/
def toBytesBE4 (n : Nat) : List Nat :=
  [n / 2 ^ 24 % 256, n / 2 ^ 16 % 256, n / 2 ^ 8 % 256, n % 256]

theorem fromBytesBE_foldl (l : List Nat) (acc : Nat) :
    l.foldl (fun a b => a * 256 + b) acc =
      acc * 256 ^ l.length + fromBytesBE l := by
  induction l generalizing acc with
  | nil => simp [fromBytesBE]
  | cons x xs ih =>
    simp only [List.foldl_cons, List.length_cons, fromBytesBE]
    rw [ih (acc * 256 + x), ih (0 * 256 + x)]
    ring

theorem fromBytesBE_four (a b c d : Nat) :
    fromBytesBE [a, b, c, d] = ((a * 256 + b) * 256 + c) * 256 + d := by
  simp [fromBytesBE]

theorem fromBytesBE_four_lt {a b c d : Nat}
    (ha : a < 256) (hb : b < 256) (hc : c < 256) (hd : d < 256) :
    fromBytesBE [a, b, c, d] < 2 ^ 32 := by
  rw [fromBytesBE_four]; omega

theorem toBytesBE4_length (n : Nat) : (toBytesBE4 n).length = 4 := by
  simp [toBytesBE4]

theorem toBytesBE4_bytes_lt (n : Nat) : ∀ b ∈ toBytesBE4 n, b < 256 := by
  simp only [toBytesBE4, List.mem_cons, List.not_mem_nil, or_false]
  rintro b (rfl | rfl | rfl | rfl) <;> omega

theorem fromBytesBE_toBytesBE4 {n : Nat} (h : n < 2 ^ 32) :
    fromBytesBE (toBytesBE4 n) = n := by
  simp only [toBytesBE4, fromBytesBE_four]
  omega

theorem toBytesBE4_fromBytesBE {a b c d : Nat}
    (ha : a < 256) (hb : b < 256) (hc : c < 256) (hd : d < 256) :
    toBytesBE4 (fromBytesBE [a, b, c, d]) = [a, b, c, d] := by
  simp only [toBytesBE4, fromBytesBE_four, List.cons.injEq, and_true]
  refine ⟨?_, ?_, ?_, ?_⟩ <;> omega

/-! ## fstrm: constants and the `DataProcessor` state -/

def FSTRM_CONTROL_ACCEPT : Nat := 1
def FSTRM_CONTROL_START : Nat := 2
def FSTRM_CONTROL_STOP : Nat := 3
def FSTRM_CONTROL_READY : Nat := 4
def FSTRM_CONTROL_FINISH : Nat := 5
def FSTRM_DATA_FRAME : Nat := 99
def FSTRM_CONTROL_FIELD_CONTENT_TYPE : Nat := 1

/-- Exception classes raised by `fstrm.py`. -/
inductive FstrmErr where
  | fieldTypeMismatch
  | contentTypeMismatch
  | badControlType
  | fieldSize
  | noneType
  deriving DecidableEq, Repr

/-- Observable side effects of `DataProcessor.process_frame`: bytes written
back on the connection, and the `Consumer.accepted` / `Consumer.consume`
callbacks. -/
inductive Event where
  | wrote (payload : List Nat)
  | accepted (content_type : Option (List Nat))
  | consumed (frame : List Nat)
  deriving DecidableEq, Repr

/-- The mutable state of a `DataProcessor` instance.  `is_control_frame`
and `frame` are only assigned by `frame_ready`; `__init__` leaves them
unset, modeled here by the defaults `false` and `[]`. -/
structure DataProcessor where
  buffer : List Nat
  running : Bool
  data_type : Option (List Nat)
  data_length : Option Nat
  control_length : Option Nat
  is_control_frame : Bool
  frame : List Nat
  deriving DecidableEq, Repr

namespace DataProcessor

/-- Embeds `DataProcessor.__init__(data_type)`. -/
def init (dt : Option (List Nat)) : DataProcessor :=
  { buffer := [], running := true, data_type := dt,
    data_length := none, control_length := none,
    is_control_frame := false, frame := [] }

/-- Embeds `DataProcessor.append`. -/
def append (s : DataProcessor) (data : List Nat) : DataProcessor :=
  { s with buffer := s.buffer ++ data }

/-- Embeds `DataProcessor.read_size`.  Python computes with unbounded
signed integers, hence the result type `Int`. -/
def read_size (s : DataProcessor) : Int :=
  match s.data_length with
  | none => 8 - (s.buffer.length : Int)
  | some d =>
    if d ≠ 0 then (d : Int) - (s.buffer.length : Int)
    else
      match s.control_length with
      | none => 4 - (s.buffer.length : Int)
      | some c => (c : Int) - (s.buffer.length : Int)

/-- Tail of `DataProcessor.frame_ready` once a zero `data_length` and the
control length `c` are known: the control-frame completion check. -/
def frame_ready_control (s : DataProcessor) (buffered : List Nat) (c : Nat) :
    Bool × DataProcessor :=
  if buffered.length < c then
    (false, { s with buffer := buffered })
  else
    (true, { s with is_control_frame := true,
                    frame := buffered.take c,
                    buffer := buffered.drop c,
                    data_length := none, control_length := none })

/-- Body of `DataProcessor.frame_ready` after the payload length `d` has
been determined (`self.data_length = d`); `buffered` is the local variable
holding the buffer with the already-parsed length prefix stripped. -/
def frame_ready_body (s : DataProcessor) (buffered : List Nat) (d : Nat) :
    Bool × DataProcessor :=
  if d = 0 then
    match s.control_length with
    | none =>
      if buffered.length < 4 then
        (false, { s with buffer := buffered })
      else
        frame_ready_control
          { s with control_length := some (fromBytesBE (buffered.take 4)) }
          (buffered.drop 4) (fromBytesBE (buffered.take 4))
    | some c => frame_ready_control s buffered c
  else
    if buffered.length < d then
      (false, { s with buffer := buffered })
    else
      (true, { s with is_control_frame := false,
                      frame := buffered.take d,
                      buffer := buffered.drop d,
                      data_length := none, control_length := none })

/-- Embeds `DataProcessor.frame_ready`: returns the Python return value
together with the mutated state. -/
def frame_ready (s : DataProcessor) : Bool × DataProcessor :=
  if s.running = false then (true, s)
  else
    match s.data_length with
    | none =>
      if s.buffer.length < 4 then (false, s)
      else
        frame_ready_body
          { s with data_length := some (fromBytesBE (s.buffer.take 4)) }
          (s.buffer.drop 4) (fromBytesBE (s.buffer.take 4))
    | some d => frame_ready_body s s.buffer d

/-- Embeds `DataProcessor.content_type_payload`.  The Python method
mutates `self.data_type` and signals failure by raising; here it returns
the state as mutated up to the raise point, paired with the exception if
one was raised. -/
def content_type_payload (s : DataProcessor) (frame : List Nat) :
    DataProcessor × Option FstrmErr :=
  let field_type := fromBytesBE (frame.take 4)
  let frame1 := frame.drop 4
  if field_type ≠ FSTRM_CONTROL_FIELD_CONTENT_TYPE then
    (s, some .fieldTypeMismatch)
  else
    let field_length := fromBytesBE (frame1.take 4)
    let frame2 := frame1.drop 4
    if frame2.length < field_length then (s, some .fieldSize)
    else
      let content_type := frame2.take field_length
      match s.data_type with
      | none => ({ s with data_type := some content_type }, none)
      | some dt =>
        if content_type ≠ dt then (s, some .contentTypeMismatch)
        else (s, none)

/-- Embeds `DataProcessor.process_frame` (the synchronous, `loop=None`
path).  The consumer's boolean results are supplied as the oracle
arguments `accepted_ret` and `consume_ret`; its invocations are recorded
as events.  The result quadruple is (state as mutated up to any raise
point, events in order, raised exception if any, Python return value with
`False` rendered as `0`). -/
def process_frame (s : DataProcessor) (accepted_ret consume_ret : Bool) :
    DataProcessor × List Event × Option FstrmErr × Nat :=
  if s.running = false then (s, [], none, 0)
  else if s.is_control_frame = false then
    (s, [.consumed s.frame], none, if consume_ret then FSTRM_DATA_FRAME else 0)
  else
    let control_type := fromBytesBE (s.frame.take 4)
    let frame := s.frame.drop 4
    if control_type = FSTRM_CONTROL_READY then
      match content_type_payload s frame with
      | (s1, some e) => (s1, [], some e, 0)
      | (s1, none) =>
        match s1.data_type with
        | none => (s1, [], some .noneType, 0)
        | some dt =>
          let field_bytes := dt
          let field_length := field_bytes.length
          let payload :=
            toBytesBE4 0 ++ toBytesBE4 (field_length + 12) ++
            toBytesBE4 FSTRM_CONTROL_ACCEPT ++
            toBytesBE4 FSTRM_CONTROL_FIELD_CONTENT_TYPE ++
            toBytesBE4 field_length ++ field_bytes
          (s1, [.wrote payload], none, control_type)
    else if control_type = FSTRM_CONTROL_START then
      match content_type_payload s frame with
      | (s1, some e) => (s1, [], some e, 0)
      | (s1, none) =>
        (s1, [.accepted s1.data_type], none,
         if accepted_ret then control_type else 0)
    else if control_type = FSTRM_CONTROL_STOP then (s, [], none, 0)
    else (s, [], some .badControlType, 0)

end DataProcessor

/-! ## Pure reference parser for the frame stream

`parseFramesGo` greedily extracts all complete frames from a byte stream,
following the wire format implemented by `frame_ready`: a 4-byte
big-endian payload length `L1`; if `L1 = 0` a 4-byte big-endian control
length `L2` followed by an `L2`-byte Control frame; otherwise an `L1`-byte
Data frame.  It is used as the specification against which the stateful
`DataProcessor` is proved split-invariant. -/

/-- One-frame parse: `none` when the stream holds no complete frame yet,
otherwise the frame (control flag, payload) and the unconsumed rest. -/
def parseOneFrame (s : List Nat) : Option ((Bool × List Nat) × List Nat) :=
  if s.length < 4 then none
  else if fromBytesBE (s.take 4) = 0 then
    if (s.drop 4).length < 4 then none
    else if ((s.drop 4).drop 4).length < fromBytesBE ((s.drop 4).take 4) then
      none
    else
      some ((true, ((s.drop 4).drop 4).take (fromBytesBE ((s.drop 4).take 4))),
            ((s.drop 4).drop 4).drop (fromBytesBE ((s.drop 4).take 4)))
  else
    if (s.drop 4).length < fromBytesBE (s.take 4) then none
    else
      some ((false, (s.drop 4).take (fromBytesBE (s.take 4))),
            (s.drop 4).drop (fromBytesBE (s.take 4)))

def parseFramesGo : Nat → List Nat → List (Bool × List Nat) × List Nat
  | 0, s => ([], s)
  | fuel + 1, s =>
    match parseOneFrame s with
    | none => ([], s)
    | some (fr, rest) =>
      (fr :: (parseFramesGo fuel rest).1, (parseFramesGo fuel rest).2)

/-- Greedy parse of all complete frames, with the unconsumed remainder. -/
def parseFrames (s : List Nat) : List (Bool × List Nat) × List Nat :=
  parseFramesGo s.length s

theorem parseOneFrame_consumes {s : List Nat}
    {fr : Bool × List Nat} {rest : List Nat}
    (h : parseOneFrame s = some (fr, rest)) : rest.length + 5 ≤ s.length := by
  unfold parseOneFrame at h
  split_ifs at h with h1 h2 h3 h4 h5 <;>
    first
      | exact Option.noConfusion h
      | (simp only [Option.some.injEq, Prod.mk.injEq] at h
         obtain ⟨-, h2'⟩ := h
         subst h2'
         simp only [List.length_drop] at *
         omega)

theorem parseFramesGo_none {s : List Nat} (h : parseOneFrame s = none)
    (f : Nat) : parseFramesGo f s = ([], s) := by
  cases f <;> simp [parseFramesGo, h]

theorem parseFrames_none {s : List Nat} (h : parseOneFrame s = none) :
    parseFrames s = ([], s) :=
  parseFramesGo_none h s.length

theorem parseFramesGo_congr (n : Nat) :
    ∀ (f g : Nat) (s : List Nat), s.length ≤ n → s.length ≤ f →
      s.length ≤ g → parseFramesGo f s = parseFramesGo g s := by
  induction n using Nat.strong_induction_on with
  | _ n ih =>
    intro f g s hn hf hg
    cases hp : parseOneFrame s with
    | none => rw [parseFramesGo_none hp, parseFramesGo_none hp]
    | some p =>
      obtain ⟨fr, rest⟩ := p
      have hcons := parseOneFrame_consumes hp
      match f, g with
      | 0, 0 => rfl
      | 0, g + 1 => omega
      | f + 1, 0 => omega
      | f + 1, g + 1 =>
        simp only [parseFramesGo, hp]
        rw [ih rest.length (by omega) f g rest le_rfl (by omega) (by omega)]

theorem parseFramesGo_eq_parseFrames (f : Nat) (s : List Nat)
    (h : s.length ≤ f) : parseFramesGo f s = parseFrames s :=
  parseFramesGo_congr f f s.length s h h le_rfl

theorem parseFrames_cons {s : List Nat} {fr : Bool × List Nat}
    {rest : List Nat} (h : parseOneFrame s = some (fr, rest)) :
    parseFrames s = (fr :: (parseFrames rest).1, (parseFrames rest).2) := by
  have hcons := parseOneFrame_consumes h
  obtain ⟨m, hm⟩ : ∃ m, s.length = m + 1 := ⟨s.length - 1, by omega⟩
  conv_lhs => rw [parseFrames, hm]
  simp only [parseFramesGo, h]
  rw [parseFramesGo_eq_parseFrames m rest (by omega)]

/-- Five bytes at least are consumed per extracted frame, so the number of
frames is bounded by a fifth of the stream length. -/
theorem parseFrames_count :
    ∀ (n : Nat) (s : List Nat), s.length ≤ n →
      5 * (parseFrames s).1.length ≤ s.length := by
  intro n
  induction n using Nat.strong_induction_on with
  | _ n ih =>
    intro s hs
    cases hp : parseOneFrame s with
    | none => rw [parseFrames_none hp]; simp
    | some p =>
      obtain ⟨fr, rest⟩ := p
      have hcons := parseOneFrame_consumes hp
      rw [parseFrames_cons hp]
      have := ih rest.length (by omega) rest le_rfl
      simp only [List.length_cons]
      omega

/-! ### Parse lemmas for the frame phases -/

theorem parseOneFrame_short {s : List Nat} (h : s.length < 4) :
    parseOneFrame s = none := by
  simp [parseOneFrame, h]

theorem parseOneFrame_data {d : Nat} (hd32 : d < 2 ^ 32) (hd0 : d ≠ 0)
    (buffered : List Nat) :
    parseOneFrame (toBytesBE4 d ++ buffered) =
      if buffered.length < d then none
      else some ((false, buffered.take d), buffered.drop d) := by
  have hlen : ¬(toBytesBE4 d ++ buffered).length < 4 := by
    simp only [List.length_append, toBytesBE4_length]; omega
  unfold parseOneFrame
  rw [List.take_left' (toBytesBE4_length d), List.drop_left' (toBytesBE4_length d),
      fromBytesBE_toBytesBE4 hd32, if_neg hlen, if_neg hd0]

theorem parseOneFrame_ctl_short (buffered : List Nat)
    (h : buffered.length < 4) :
    parseOneFrame (toBytesBE4 0 ++ buffered) = none := by
  have hlen : ¬(toBytesBE4 0 ++ buffered).length < 4 := by
    simp only [List.length_append, toBytesBE4_length]; omega
  unfold parseOneFrame
  rw [List.take_left' (toBytesBE4_length 0), List.drop_left' (toBytesBE4_length 0),
      fromBytesBE_toBytesBE4 (show (0 : Nat) < 2 ^ 32 by omega),
      if_neg hlen, if_pos rfl, if_pos h]

theorem parseOneFrame_ctl {c : Nat} (hc32 : c < 2 ^ 32) (buffered : List Nat) :
    parseOneFrame (toBytesBE4 0 ++ (toBytesBE4 c ++ buffered)) =
      if buffered.length < c then none
      else some ((true, buffered.take c), buffered.drop c) := by
  have hlen0 : ¬(toBytesBE4 0 ++ (toBytesBE4 c ++ buffered)).length < 4 := by
    simp only [List.length_append, toBytesBE4_length]; omega
  have hlenc : ¬(toBytesBE4 c ++ buffered).length < 4 := by
    simp only [List.length_append, toBytesBE4_length]; omega
  unfold parseOneFrame
  rw [List.take_left' (toBytesBE4_length 0), List.drop_left' (toBytesBE4_length 0),
      List.take_left' (toBytesBE4_length c), List.drop_left' (toBytesBE4_length c),
      fromBytesBE_toBytesBE4 (show (0 : Nat) < 2 ^ 32 by omega),
      fromBytesBE_toBytesBE4 hc32, if_neg hlen0, if_pos rfl, if_neg hlenc]

/-! ## Abstraction from `DataProcessor` state to the unconsumed stream -/

/-- Bytes that `frame_ready` has already parsed out of the buffer into the
pending `data_length` / `control_length` fields, reconstituted. -/
def pendingBytes : Option Nat → Option Nat → List Nat
  | none, _ => []
  | some d, cl =>
    toBytesBE4 d ++
      (if d = 0 then
         match cl with
         | none => []
         | some c => toBytesBE4 c
       else [])

/-- The virtual unconsumed byte stream that a `DataProcessor` state stands
for: the reconstituted pending length fields followed by the buffer. -/
def absDP (s : DataProcessor) : List Nat :=
  pendingBytes s.data_length s.control_length ++ s.buffer

/-- Well-formedness of a `DataProcessor` state, as maintained by
`append` / `frame_ready` runs over genuine byte input. -/
def WF (s : DataProcessor) : Prop :=
  s.running = true ∧
  (∀ d, s.data_length = some d → d < 2 ^ 32) ∧
  (∀ c, s.control_length = some c → c < 2 ^ 32) ∧
  (∀ b ∈ s.buffer, b < 256) ∧
  (s.data_length = none → s.control_length = none)

theorem pendingBytes_ne_zero {d : Nat} (hd : d ≠ 0) (cl : Option Nat) :
    pendingBytes (some d) cl = toBytesBE4 d := by
  simp [pendingBytes, hd]

theorem pendingBytes_zero_none : pendingBytes (some 0) none = toBytesBE4 0 := by
  simp [pendingBytes]

theorem pendingBytes_zero_some (c : Nat) :
    pendingBytes (some 0) (some c) = toBytesBE4 0 ++ toBytesBE4 c := by
  simp [pendingBytes]

theorem pendingBytes_length_le (dl cl : Option Nat) :
    (pendingBytes dl cl).length ≤ 8 := by
  match dl, cl with
  | none, _ => simp [pendingBytes]
  | some d, none =>
    by_cases hd : d = 0 <;> simp [pendingBytes, hd, toBytesBE4]
  | some d, some c =>
    by_cases hd : d = 0 <;> simp [pendingBytes, hd, toBytesBE4]

theorem absDP_length_le (s : DataProcessor) :
    (absDP s).length ≤ s.buffer.length + 8 := by
  have := pendingBytes_length_le s.data_length s.control_length
  simp only [absDP, List.length_append]
  omega

theorem fromBytesBE_lt_of_len4 {l : List Nat} (hl : l.length = 4)
    (hb : ∀ b ∈ l, b < 256) : fromBytesBE l < 2 ^ 32 := by
  match l, hl with
  | [a, b, c, d], _ =>
    exact fromBytesBE_four_lt (hb a (by simp)) (hb b (by simp))
      (hb c (by simp)) (hb d (by simp))

theorem toBytesBE4_fromBytesBE_of_len4 {l : List Nat} (hl : l.length = 4)
    (hb : ∀ b ∈ l, b < 256) : toBytesBE4 (fromBytesBE l) = l := by
  match l, hl with
  | [a, b, c, d], _ =>
    exact toBytesBE4_fromBytesBE (hb a (by simp)) (hb b (by simp))
      (hb c (by simp)) (hb d (by simp))

theorem take4_length {l : List Nat} (h : ¬l.length < 4) :
    (l.take 4).length = 4 := by
  simp only [List.length_take]
  omega

theorem take4_bytes {l : List Nat} (hb : ∀ b ∈ l, b < 256) :
    ∀ b ∈ l.take 4, b < 256 :=
  fun b hm => hb b (List.take_subset 4 l hm)

theorem pendingBytes_some_none (d : Nat) :
    pendingBytes (some d) none = toBytesBE4 d := by
  by_cases hd : d = 0 <;> simp [pendingBytes, hd]

/-- Simulation of `frame_ready_control` against the pure parser. -/
theorem frame_ready_control_spec (s : DataProcessor) (buffered : List Nat)
    (c : Nat) (h : WF s) (hdl : s.data_length = some 0)
    (hcl : s.control_length = some c)
    (hbytes : ∀ b ∈ buffered, b < 256) :
    WF (DataProcessor.frame_ready_control s buffered c).2 ∧
    ((DataProcessor.frame_ready_control s buffered c).1 = true →
      parseFrames (toBytesBE4 0 ++ (toBytesBE4 c ++ buffered)) =
        (((DataProcessor.frame_ready_control s buffered c).2.is_control_frame,
          (DataProcessor.frame_ready_control s buffered c).2.frame) ::
            (parseFrames
              (absDP (DataProcessor.frame_ready_control s buffered c).2)).1,
         (parseFrames
           (absDP (DataProcessor.frame_ready_control s buffered c).2)).2)) ∧
    ((DataProcessor.frame_ready_control s buffered c).1 = false →
      parseOneFrame (toBytesBE4 0 ++ (toBytesBE4 c ++ buffered)) = none ∧
      absDP (DataProcessor.frame_ready_control s buffered c).2 =
        toBytesBE4 0 ++ (toBytesBE4 c ++ buffered)) := by
  have hc32 : c < 2 ^ 32 := h.2.2.1 c hcl
  obtain ⟨buf, run, dt, dl, cl, icf, fr⟩ := s
  have hrun : run = true := h.1
  have hdl' : dl = some 0 := hdl
  have hcl' : cl = some c := hcl
  subst hrun hdl' hcl'
  unfold DataProcessor.frame_ready_control
  by_cases hlt : buffered.length < c
  · rw [if_pos hlt]
    refine ⟨?_, ?_, ?_⟩
    · exact ⟨rfl,
        fun d' hd' => by injection hd' with hh; omega,
        fun c' hc' => by injection hc' with hh; subst hh; exact hc32,
        hbytes,
        fun hnone => Option.noConfusion hnone⟩
    · intro hh
      exact Bool.noConfusion hh
    · intro _
      refine ⟨?_, ?_⟩
      · rw [parseOneFrame_ctl hc32 buffered, if_pos hlt]
      · show pendingBytes (some 0) (some c) ++ buffered = _
        rw [pendingBytes_zero_some, List.append_assoc]
  · rw [if_neg hlt]
    refine ⟨?_, ?_, ?_⟩
    · exact ⟨rfl,
        fun d' hd' => Option.noConfusion hd',
        fun c' hc' => Option.noConfusion hc',
        fun x hm => hbytes x (List.drop_subset _ _ hm),
        fun _ => rfl⟩
    · intro _
      have hp : parseOneFrame (toBytesBE4 0 ++ (toBytesBE4 c ++ buffered)) =
          some ((true, buffered.take c), buffered.drop c) := by
        rw [parseOneFrame_ctl hc32 buffered, if_neg hlt]
      rw [parseFrames_cons hp]
      rfl
    · intro hh
      exact Bool.noConfusion hh

/-- Simulation of `frame_ready_body` against the pure parser. -/
theorem frame_ready_body_spec (s : DataProcessor) (buffered : List Nat)
    (d : Nat) (h : WF s) (hdl : s.data_length = some d)
    (hbytes : ∀ b ∈ buffered, b < 256) :
    WF (DataProcessor.frame_ready_body s buffered d).2 ∧
    ((DataProcessor.frame_ready_body s buffered d).1 = true →
      parseFrames (pendingBytes (some d) s.control_length ++ buffered) =
        (((DataProcessor.frame_ready_body s buffered d).2.is_control_frame,
          (DataProcessor.frame_ready_body s buffered d).2.frame) ::
            (parseFrames
              (absDP (DataProcessor.frame_ready_body s buffered d).2)).1,
         (parseFrames
           (absDP (DataProcessor.frame_ready_body s buffered d).2)).2)) ∧
    ((DataProcessor.frame_ready_body s buffered d).1 = false →
      parseOneFrame (pendingBytes (some d) s.control_length ++ buffered) =
        none ∧
      absDP (DataProcessor.frame_ready_body s buffered d).2 =
        pendingBytes (some d) s.control_length ++ buffered) := by
  have hd32 : d < 2 ^ 32 := h.2.1 d hdl
  obtain ⟨buf, run, dt, dl, cl, icf, fr⟩ := s
  have hrun : run = true := h.1
  have hbuf : ∀ b ∈ buf, b < 256 := h.2.2.2.1
  have hcl32 : ∀ c, cl = some c → c < 2 ^ 32 := h.2.2.1
  have hdl' : dl = some d := hdl
  subst hrun hdl'
  unfold DataProcessor.frame_ready_body
  by_cases hd0 : d = 0
  · subst hd0
    rw [if_pos rfl]
    cases cl with
    | none =>
      by_cases hb4 : buffered.length < 4
      · rw [if_pos hb4]
        refine ⟨?_, ?_, ?_⟩
        · exact ⟨rfl, fun d' hd' => by injection hd' with hh; omega,
            fun c' hc' => Option.noConfusion hc', hbytes,
            fun hnone => Option.noConfusion hnone⟩
        · intro hh
          exact Bool.noConfusion hh
        · intro _
          exact ⟨parseOneFrame_ctl_short buffered hb4, rfl⟩
      · rw [if_neg hb4]
        have hC32 : fromBytesBE (buffered.take 4) < 2 ^ 32 :=
          fromBytesBE_lt_of_len4 (take4_length hb4) (take4_bytes hbytes)
        have hbd : ∀ b ∈ buffered.drop 4, b < 256 :=
          fun b hm => hbytes b (List.drop_subset _ _ hm)
        have hsplit : buffered =
            toBytesBE4 (fromBytesBE (buffered.take 4)) ++ buffered.drop 4 := by
          conv_lhs => rw [← List.take_append_drop 4 buffered]
          rw [toBytesBE4_fromBytesBE_of_len4 (take4_length hb4)
            (take4_bytes hbytes)]
        have hspec := frame_ready_control_spec
          ⟨buf, true, dt, some 0, some (fromBytesBE (buffered.take 4)),
            icf, fr⟩
          (buffered.drop 4) (fromBytesBE (buffered.take 4))
          ⟨rfl, fun d' hd' => by injection hd' with hh; omega,
           fun c' hc' => by injection hc' with hh; subst hh; exact hC32,
           hbuf, fun hnone => Option.noConfusion hnone⟩
          rfl rfl hbd
        rw [← hsplit] at hspec
        exact hspec
    | some c =>
      have hc32 : c < 2 ^ 32 := hcl32 c rfl
      have hspec := frame_ready_control_spec
        ⟨buf, true, dt, some 0, some c, icf, fr⟩ buffered c
        ⟨rfl, fun d' hd' => by injection hd' with hh; omega,
         fun c' hc' => by injection hc' with hh; subst hh; exact hc32,
         hbuf, fun hnone => Option.noConfusion hnone⟩
        rfl rfl hbytes
      rw [show toBytesBE4 0 ++ (toBytesBE4 c ++ buffered) =
          pendingBytes (some 0) (some c) ++ buffered from by
        rw [pendingBytes_zero_some, List.append_assoc]] at hspec
      exact hspec
  · rw [if_neg hd0]
    by_cases hlt : buffered.length < d
    · rw [if_pos hlt]
      refine ⟨?_, ?_, ?_⟩
      · exact ⟨rfl,
          fun d' hd' => by injection hd' with hh; subst hh; exact hd32,
          fun c' hc' => hcl32 c' hc', hbytes,
          fun hnone => Option.noConfusion hnone⟩
      · intro hh
        exact Bool.noConfusion hh
      · intro _
        refine ⟨?_, rfl⟩
        show parseOneFrame (pendingBytes (some d) cl ++ buffered) = none
        rw [pendingBytes_ne_zero hd0, parseOneFrame_data hd32 hd0 buffered,
          if_pos hlt]
    · rw [if_neg hlt]
      refine ⟨?_, ?_, ?_⟩
      · exact ⟨rfl, fun d' hd' => Option.noConfusion hd',
          fun c' hc' => Option.noConfusion hc',
          fun x hm => hbytes x (List.drop_subset _ _ hm),
          fun _ => rfl⟩
      · intro _
        have hp : parseOneFrame (toBytesBE4 d ++ buffered) =
            some ((false, buffered.take d), buffered.drop d) := by
          rw [parseOneFrame_data hd32 hd0 buffered, if_neg hlt]
        show parseFrames (pendingBytes (some d) cl ++ buffered) = _
        rw [pendingBytes_ne_zero hd0, parseFrames_cons hp]
        rfl
      · intro hh
        exact Bool.noConfusion hh

/-- Simulation of `frame_ready` against the pure parser: on `True` the
extracted frame is the head of the pure parse of the abstract stream; on
`False` no complete frame is available and the abstract stream is
untouched. -/
theorem frame_ready_spec (s : DataProcessor) (h : WF s) :
    WF (DataProcessor.frame_ready s).2 ∧
    ((DataProcessor.frame_ready s).1 = true →
      parseFrames (absDP s) =
        (((DataProcessor.frame_ready s).2.is_control_frame,
          (DataProcessor.frame_ready s).2.frame) ::
            (parseFrames (absDP (DataProcessor.frame_ready s).2)).1,
         (parseFrames (absDP (DataProcessor.frame_ready s).2)).2)) ∧
    ((DataProcessor.frame_ready s).1 = false →
      parseOneFrame (absDP s) = none ∧
      absDP (DataProcessor.frame_ready s).2 = absDP s) := by
  obtain ⟨buf, run, dt, dl, cl, icf, fr⟩ := s
  have hrun : run = true := h.1
  subst hrun
  have hbuf : ∀ b ∈ buf, b < 256 := h.2.2.2.1
  unfold DataProcessor.frame_ready
  rw [if_neg (show ¬(true = false) by decide)]
  cases dl with
  | none =>
    have hcl : cl = none := h.2.2.2.2 rfl
    subst hcl
    by_cases hb4 : buf.length < 4
    · rw [if_pos hb4]
      refine ⟨h, ?_, ?_⟩
      · intro hh
        exact Bool.noConfusion hh
      · intro _
        exact ⟨parseOneFrame_short hb4, rfl⟩
    · rw [if_neg hb4]
      have hD32 : fromBytesBE (buf.take 4) < 2 ^ 32 :=
        fromBytesBE_lt_of_len4 (take4_length hb4) (take4_bytes hbuf)
      have hbd : ∀ b ∈ buf.drop 4, b < 256 :=
        fun b hm => hbuf b (List.drop_subset _ _ hm)
      have hspec := frame_ready_body_spec
        ⟨buf, true, dt, some (fromBytesBE (buf.take 4)), none, icf, fr⟩
        (buf.drop 4) (fromBytesBE (buf.take 4))
        ⟨rfl, fun d' hd' => by injection hd' with hh; subst hh; exact hD32,
         fun c' hc' => Option.noConfusion hc', hbuf,
         fun hnone => Option.noConfusion hnone⟩
        rfl hbd
      have hstream : pendingBytes (some (fromBytesBE (buf.take 4))) none ++
          buf.drop 4 = absDP ⟨buf, true, dt, none, none, icf, fr⟩ := by
        rw [pendingBytes_some_none,
          toBytesBE4_fromBytesBE_of_len4 (take4_length hb4)
            (take4_bytes hbuf)]
        show buf.take 4 ++ buf.drop 4 = _
        rw [List.take_append_drop]
        rfl
      rw [hstream] at hspec
      exact hspec
  | some d =>
    exact frame_ready_body_spec ⟨buf, true, dt, some d, cl, icf, fr⟩
      buf d h rfl hbuf

/-! ## Prefix stability of the one-frame parser -/

theorem parseOneFrame_append {a : List Nat} {fr : Bool × List Nat}
    {rest : List Nat} (h : parseOneFrame a = some (fr, rest)) (b : List Nat) :
    parseOneFrame (a ++ b) = some (fr, rest ++ b) := by
  unfold parseOneFrame at h
  split_ifs at h with h1 h2 h3 h4 h5 <;>
    first
      | exact Option.noConfusion h
      | (simp only [Option.some.injEq, Prod.mk.injEq] at h
         obtain ⟨hfr, hrest⟩ := h
         simp only [List.length_drop] at h3 h4
         have e1 : (a ++ b).take 4 = a.take 4 :=
           List.take_append_of_le_length (by omega)
         have e2 : (a ++ b).drop 4 = a.drop 4 ++ b :=
           List.drop_append_of_le_length (by omega)
         have e3 : (a.drop 4 ++ b).take 4 = (a.drop 4).take 4 :=
           List.take_append_of_le_length
             (by simp only [List.length_drop]; omega)
         have e4 : (a.drop 4 ++ b).drop 4 = (a.drop 4).drop 4 ++ b :=
           List.drop_append_of_le_length
             (by simp only [List.length_drop]; omega)
         have e5 : ((a.drop 4).drop 4 ++ b).take
             (fromBytesBE ((a.drop 4).take 4)) =
             ((a.drop 4).drop 4).take (fromBytesBE ((a.drop 4).take 4)) :=
           List.take_append_of_le_length
             (by simp only [List.length_drop]; omega)
         have e6 : ((a.drop 4).drop 4 ++ b).drop
             (fromBytesBE ((a.drop 4).take 4)) =
             ((a.drop 4).drop 4).drop
               (fromBytesBE ((a.drop 4).take 4)) ++ b :=
           List.drop_append_of_le_length
             (by simp only [List.length_drop]; omega)
         have g1 : ¬(a ++ b).length < 4 := by
           simp only [List.length_append]; omega
         have g2 : ¬(a.drop 4 ++ b).length < 4 := by
           simp only [List.length_append, List.length_drop]; omega
         have g3 : ¬((a.drop 4).drop 4 ++ b).length <
             fromBytesBE ((a.drop 4).take 4) := by
           simp only [List.length_append, List.length_drop]; omega
         unfold parseOneFrame
         rw [if_neg g1, e1, e2, if_pos h2, e3, e4, if_neg g2, e5, e6,
           if_neg g3, hfr, hrest])
      | (simp only [Option.some.injEq, Prod.mk.injEq] at h
         obtain ⟨hfr, hrest⟩ := h
         simp only [List.length_drop] at h5
         have e1 : (a ++ b).take 4 = a.take 4 :=
           List.take_append_of_le_length (by omega)
         have e2 : (a ++ b).drop 4 = a.drop 4 ++ b :=
           List.drop_append_of_le_length (by omega)
         have e5 : (a.drop 4 ++ b).take (fromBytesBE (a.take 4)) =
             (a.drop 4).take (fromBytesBE (a.take 4)) :=
           List.take_append_of_le_length
             (by simp only [List.length_drop]; omega)
         have e6 : (a.drop 4 ++ b).drop (fromBytesBE (a.take 4)) =
             (a.drop 4).drop (fromBytesBE (a.take 4)) ++ b :=
           List.drop_append_of_le_length
             (by simp only [List.length_drop]; omega)
         have g1 : ¬(a ++ b).length < 4 := by
           simp only [List.length_append]; omega
         have g3 : ¬(a.drop 4 ++ b).length < fromBytesBE (a.take 4) := by
           simp only [List.length_append, List.length_drop]; omega
         unfold parseOneFrame
         rw [if_neg g1, e1, e2, if_neg h2, e5, e6, if_neg g3, hfr, hrest])

theorem parseFrames_append :
    ∀ (n : Nat) (a : List Nat), a.length ≤ n → ∀ b : List Nat,
      parseFrames (a ++ b) =
        ((parseFrames a).1 ++ (parseFrames ((parseFrames a).2 ++ b)).1,
         (parseFrames ((parseFrames a).2 ++ b)).2) := by
  intro n
  induction n using Nat.strong_induction_on with
  | _ n ih =>
    intro a ha b
    cases hp : parseOneFrame a with
    | none =>
      rw [parseFrames_none hp]
      rfl
    | some p =>
      obtain ⟨fr, rest⟩ := p
      have hcons := parseOneFrame_consumes hp
      have hpb := parseOneFrame_append hp b
      rw [parseFrames_cons hp, parseFrames_cons hpb,
        ih rest.length (by omega) rest le_rfl b]
      simp [List.cons_append]

/-- The remainder left by the greedy parse holds no further frame. -/
theorem parseFrames_rem_stuck :
    ∀ (n : Nat) (s : List Nat), s.length ≤ n →
      parseOneFrame (parseFrames s).2 = none := by
  intro n
  induction n using Nat.strong_induction_on with
  | _ n ih =>
    intro s hs
    cases hp : parseOneFrame s with
    | none => rw [parseFrames_none hp]; exact hp
    | some p =>
      obtain ⟨fr, rest⟩ := p
      have hcons := parseOneFrame_consumes hp
      rw [parseFrames_cons hp]
      exact ih rest.length (by omega) rest le_rfl

/-! ## The read loop: drain all ready frames, feed chunk by chunk

`drainGo` mirrors the `while not processor.frame_ready()` read loop of
`Server.listen` / `Server.process_data`: it calls `frame_ready`
repeatedly, collecting each completed (`is_control_frame`, `frame`) pair,
until `frame_ready` reports that no complete frame remains buffered. -/

def drainGo : Nat → DataProcessor → List (Bool × List Nat) × DataProcessor
  | 0, s => ([], s)
  | fuel + 1, s =>
    match DataProcessor.frame_ready s with
    | (true, s1) =>
      ((s1.is_control_frame, s1.frame) :: (drainGo fuel s1).1,
       (drainGo fuel s1).2)
    | (false, s1) => ([], s1)

/-- Extract every complete frame currently in the buffer.  The fuel bound
suffices because every extracted frame consumes at least five bytes. -/
def drain (s : DataProcessor) : List (Bool × List Nat) × DataProcessor :=
  drainGo (s.buffer.length + 2) s

/-- Feed the chunks one at a time, draining all complete frames after
each `append`. -/
def runChunksGo :
    DataProcessor → List (List Nat) → List (Bool × List Nat) × DataProcessor
  | s, [] => ([], s)
  | s, chunk :: rest =>
    ((drain (s.append chunk)).1 ++
       (runChunksGo (drain (s.append chunk)).2 rest).1,
     (runChunksGo (drain (s.append chunk)).2 rest).2)

/-- The ordered sequence of (is_control_frame, frame payload) pairs
produced by feeding `chunks` through `append` / `frame_ready`, starting
from a fresh `DataProcessor`. -/
def feedChunks (chunks : List (List Nat)) : List (Bool × List Nat) :=
  (runChunksGo (DataProcessor.init none) chunks).1

/-- Pure counterpart of `runChunksGo`, over abstract byte streams. -/
def pureFeed : List Nat → List (List Nat) → List (Bool × List Nat) × List Nat
  | rem, [] => ([], rem)
  | rem, chunk :: rest =>
    ((parseFrames (rem ++ chunk)).1 ++
       (pureFeed (parseFrames (rem ++ chunk)).2 rest).1,
     (pureFeed (parseFrames (rem ++ chunk)).2 rest).2)

theorem drainGo_spec :
    ∀ (fuel : Nat) (s : DataProcessor), WF s →
      (parseFrames (absDP s)).1.length < fuel →
      (drainGo fuel s).1 = (parseFrames (absDP s)).1 ∧
      absDP (drainGo fuel s).2 = (parseFrames (absDP s)).2 ∧
      WF (drainGo fuel s).2 := by
  intro fuel
  induction fuel with
  | zero => intro s _ hlen; omega
  | succ fuel ih =>
    intro s hs hlen
    obtain ⟨hwf, htrue, hfalse⟩ := frame_ready_spec s hs
    cases hfr : DataProcessor.frame_ready s with
    | mk bres s1 =>
      rw [hfr] at hwf
      cases bres
      · obtain ⟨hnone, habs⟩ := hfalse (by rw [hfr])
        rw [hfr] at habs
        simp only [drainGo, hfr]
        rw [parseFrames_none hnone]
        exact ⟨rfl, habs, hwf⟩
      · have hpar := htrue (by rw [hfr])
        rw [hfr] at hpar
        have hlen1 : (parseFrames (absDP s1)).1.length < fuel := by
          rw [hpar] at hlen
          simp only [List.length_cons] at hlen
          omega
        obtain ⟨ih1, ih2, ih3⟩ := ih s1 hwf hlen1
        simp only [drainGo, hfr]
        refine ⟨?_, ?_, ih3⟩
        · rw [hpar, ih1]
        · rw [hpar, ih2]

theorem drain_spec (s : DataProcessor) (h : WF s) :
    (drain s).1 = (parseFrames (absDP s)).1 ∧
    absDP (drain s).2 = (parseFrames (absDP s)).2 ∧
    WF (drain s).2 := by
  have hcount := parseFrames_count (absDP s).length (absDP s) le_rfl
  have habs := absDP_length_le s
  exact drainGo_spec (s.buffer.length + 2) s h (by omega)

theorem append_spec (s : DataProcessor) (chunk : List Nat) (h : WF s)
    (hc : ∀ b ∈ chunk, b < 256) :
    WF (s.append chunk) ∧ absDP (s.append chunk) = absDP s ++ chunk := by
  obtain ⟨h1, h2, h3, h4, h5⟩ := h
  refine ⟨⟨h1, h2, h3, ?_, h5⟩, ?_⟩
  · intro b hm
    have hm' : b ∈ s.buffer ++ chunk := hm
    rcases List.mem_append.mp hm' with hmm | hmm
    · exact h4 b hmm
    · exact hc b hmm
  · show pendingBytes s.data_length s.control_length ++ (s.buffer ++ chunk) =
      (pendingBytes s.data_length s.control_length ++ s.buffer) ++ chunk
    rw [List.append_assoc]

theorem runChunksGo_spec :
    ∀ (chunks : List (List Nat)) (s : DataProcessor), WF s →
      (∀ c ∈ chunks, ∀ b ∈ c, b < 256) →
      (runChunksGo s chunks).1 = (pureFeed (absDP s) chunks).1 ∧
      absDP (runChunksGo s chunks).2 = (pureFeed (absDP s) chunks).2 ∧
      WF (runChunksGo s chunks).2 := by
  intro chunks
  induction chunks with
  | nil => intro s hs _; exact ⟨rfl, rfl, hs⟩
  | cons chunk rest ih =>
    intro s hs hc
    obtain ⟨hwa, habsa⟩ := append_spec s chunk hs (hc chunk (by simp))
    obtain ⟨hd1, hd2, hd3⟩ := drain_spec (s.append chunk) hwa
    have hcrest : ∀ c ∈ rest, ∀ b ∈ c, b < 256 :=
      fun c hm => hc c (by simp [hm])
    obtain ⟨hr1, hr2, hr3⟩ := ih (drain (s.append chunk)).2 hd3 hcrest
    rw [habsa] at hd1 hd2
    simp only [runChunksGo, pureFeed]
    refine ⟨?_, ?_, hr3⟩
    · rw [hd1, hr1, hd2]
    · rw [hr2, hd2]

theorem pureFeed_flatten :
    ∀ (chunks : List (List Nat)) (rem : List Nat),
      parseOneFrame rem = none →
      (pureFeed rem chunks).1 = (parseFrames (rem ++ chunks.flatten)).1 ∧
      (pureFeed rem chunks).2 = (parseFrames (rem ++ chunks.flatten)).2 := by
  intro chunks
  induction chunks with
  | nil =>
    intro rem hrem
    rw [show ([] : List (List Nat)).flatten = [] from rfl, List.append_nil,
      parseFrames_none hrem]
    exact ⟨rfl, rfl⟩
  | cons chunk rest ih =>
    intro rem hrem
    have hstuck : parseOneFrame (parseFrames (rem ++ chunk)).2 = none :=
      parseFrames_rem_stuck (rem ++ chunk).length (rem ++ chunk) le_rfl
    obtain ⟨ih1, ih2⟩ := ih (parseFrames (rem ++ chunk)).2 hstuck
    have happ := parseFrames_append (rem ++ chunk).length (rem ++ chunk)
      le_rfl rest.flatten
    have hassoc : rem ++ (chunk :: rest).flatten =
        (rem ++ chunk) ++ rest.flatten := by
      rw [show (chunk :: rest).flatten = chunk ++ rest.flatten from rfl,
        List.append_assoc]
    simp only [pureFeed]
    rw [ih1, ih2, hassoc, happ]
    exact ⟨rfl, rfl⟩

/-- Feeding any byte-valid chunk sequence through the processor produces
exactly the greedy parse of the concatenated stream. -/
theorem feedChunks_eq_parse (chunks : List (List Nat))
    (h : ∀ c ∈ chunks, ∀ b ∈ c, b < 256) :
    feedChunks chunks = (parseFrames chunks.flatten).1 := by
  have hwf : WF (DataProcessor.init none) :=
    ⟨rfl, fun d hd => Option.noConfusion hd,
     fun c hc => Option.noConfusion hc,
     fun b hb => absurd hb (List.not_mem_nil b),
     fun _ => rfl⟩
  obtain ⟨h1, _, _⟩ := runChunksGo_spec chunks (DataProcessor.init none) hwf h
  have hstart : parseOneFrame (absDP (DataProcessor.init none)) = none :=
    parseOneFrame_short (by simp [absDP, DataProcessor.init, pendingBytes])
  obtain ⟨p1, _⟩ := pureFeed_flatten chunks
    (absDP (DataProcessor.init none)) hstart
  rw [feedChunks, h1, p1]
  rw [show absDP (DataProcessor.init none) = [] from rfl, List.nil_append]

/-! ## Claim C1 -/

/-- C1: Reassembly is split-invariant.  For every byte-valid stream and
every partition of it into chunks (including one byte at a time), feeding
the chunks through `DataProcessor.append` and repeatedly extracting
complete frames via `frame_ready` yields exactly the same ordered
sequence of (Control/Data, payload) frames as feeding the entire stream
in one chunk. -/
theorem C1_reassembly_split_invariant (chunks : List (List Nat))
    (hbytes : ∀ c ∈ chunks, ∀ b ∈ c, b < 256) :
    feedChunks chunks = feedChunks [chunks.flatten] := by
  have hv : ∀ c ∈ [chunks.flatten], ∀ b ∈ c, b < 256 := by
    intro c hc b hb
    rw [List.mem_singleton] at hc
    subst hc
    obtain ⟨l, hl, hbl⟩ := List.mem_flatten.mp hb
    exact hbytes l hl b hbl
  rw [feedChunks_eq_parse chunks hbytes, feedChunks_eq_parse [chunks.flatten] hv,
    show [chunks.flatten].flatten = chunks.flatten ++ [] from rfl,
    List.append_nil]

theorem C1_witness :
    (∀ c ∈ [[0, 0, 0, 1], [170]], ∀ b ∈ c, b < 256) ∧
    feedChunks [[0, 0, 0, 1], [170]] =
      feedChunks [[[0, 0, 0, 1], [170]].flatten] :=
  ⟨by decide, C1_reassembly_split_invariant [[0, 0, 0, 1], [170]] (by decide)⟩

/-! ## Claim C9 -/

theorem true_ne_false : ¬(true = false) := by decide


theorem frame_ready_control_false_read_size (s : DataProcessor)
    (buffered : List Nat) (c : Nat) (hdl : s.data_length = some 0)
    (hcl : s.control_length = some c)
    (h : (DataProcessor.frame_ready_control s buffered c).1 = false) :
    0 < DataProcessor.read_size
      (DataProcessor.frame_ready_control s buffered c).2 := by
  obtain ⟨buf, run, dt, dl, cl, icf, fr⟩ := s
  have hdl' : dl = some 0 := hdl
  have hcl' : cl = some c := hcl
  subst hdl' hcl'
  unfold DataProcessor.frame_ready_control at h ⊢
  by_cases hlt : buffered.length < c
  · rw [if_pos hlt] at h ⊢
    show (0 : Int) < (c : Int) - (buffered.length : Int)
    omega
  · rw [if_neg hlt] at h
    exact Bool.noConfusion h

theorem frame_ready_body_false_read_size (s : DataProcessor)
    (buffered : List Nat) (d : Nat) (hdl : s.data_length = some d)
    (h : (DataProcessor.frame_ready_body s buffered d).1 = false) :
    0 < DataProcessor.read_size
      (DataProcessor.frame_ready_body s buffered d).2 := by
  obtain ⟨buf, run, dt, dl, cl, icf, fr⟩ := s
  have hdl' : dl = some d := hdl
  subst hdl'
  unfold DataProcessor.frame_ready_body at h ⊢
  by_cases hd0 : d = 0
  · subst hd0
    rw [if_pos rfl] at h ⊢
    cases cl with
    | none =>
      by_cases hb4 : buffered.length < 4
      · rw [if_pos hb4] at h ⊢
        show (0 : Int) < 4 - (buffered.length : Int)
        omega
      · rw [if_neg hb4] at h ⊢
        exact frame_ready_control_false_read_size
          ⟨buf, run, dt, some 0, some (fromBytesBE (buffered.take 4)),
            icf, fr⟩
          (buffered.drop 4) (fromBytesBE (buffered.take 4)) rfl rfl h
    | some c =>
      exact frame_ready_control_false_read_size
        ⟨buf, run, dt, some 0, some c, icf, fr⟩ buffered c rfl rfl h
  · rw [if_neg hd0] at h ⊢
    by_cases hlt : buffered.length < d
    · rw [if_pos hlt] at h ⊢
      show (0 : Int) <
        DataProcessor.read_size ⟨buffered, run, dt, some d, cl, icf, fr⟩
      simp only [DataProcessor.read_size]
      rw [if_pos hd0]
      omega
    · rw [if_neg hlt] at h
      exact Bool.noConfusion h

/-- C9: in every `DataProcessor` state in which `frame_ready()` returns
`False` (no complete frame buffered), the subsequent `read_size()` call
returns a strictly positive count, so the read loop never issues a
zero- or negative-length read. -/
theorem C9_read_size_positive (s : DataProcessor)
    (h : (DataProcessor.frame_ready s).1 = false) :
    0 < DataProcessor.read_size (DataProcessor.frame_ready s).2 := by
  obtain ⟨buf, run, dt, dl, cl, icf, fr⟩ := s
  unfold DataProcessor.frame_ready at h ⊢
  cases run
  · rw [if_pos rfl] at h
    exact Bool.noConfusion h
  · rw [if_neg true_ne_false] at h ⊢
    cases dl with
    | none =>
      by_cases hb4 : buf.length < 4
      · rw [if_pos hb4] at h ⊢
        show (0 : Int) < 8 - (buf.length : Int)
        omega
      · rw [if_neg hb4] at h ⊢
        exact frame_ready_body_false_read_size
          ⟨buf, true, dt, some (fromBytesBE (buf.take 4)), cl, icf, fr⟩
          (buf.drop 4) (fromBytesBE (buf.take 4)) rfl h
    | some d =>
      exact frame_ready_body_false_read_size
        ⟨buf, true, dt, some d, cl, icf, fr⟩ buf d rfl h

theorem C9_witness :
    (DataProcessor.frame_ready (DataProcessor.init none)).1 = false ∧
    0 < DataProcessor.read_size
      (DataProcessor.frame_ready (DataProcessor.init none)).2 :=
  ⟨by decide, C9_read_size_positive (DataProcessor.init none) (by decide)⟩

/-! ## Claim C8 -/

/-- C8 counterexample: in the initial state `read_size` returns 8, yet a
5-byte append (a 1-byte Data frame) already completes a frame, so 8 is
not the minimum number of additional bytes after which a frame can
possibly be extracted. -/
theorem C8_counterexample :
    DataProcessor.read_size (DataProcessor.init none) = 8 ∧
    ([0, 0, 0, 1, 170] : List Nat).length = 5 ∧
    (DataProcessor.frame_ready
      ((DataProcessor.init none).append [0, 0, 0, 1, 170])).1 = true := by
  decide

/-- C8 (amended): `read_size` returns the exact minimum number of
additional bytes needed to complete the pending frame once its length
field is determined (nonzero `data_length`, or known `control_length`);
while a length field is still undetermined it returns the bytes needed to
complete the fixed 8-byte (resp. 4-byte) header region (`8 - len`,
resp. `4 - len`), which is a lower bound on useful reads but need not
equal the minimum for frame extraction. -/
theorem C8_read_size_amended (s : DataProcessor)
    (hrun : s.running = true) :
    (s.data_length = none →
      DataProcessor.read_size s = 8 - (s.buffer.length : Int) ∧
      ∀ chunk : List Nat, s.buffer.length + chunk.length < 4 →
        (DataProcessor.frame_ready (s.append chunk)).1 = false) ∧
    (∀ d, s.data_length = some d → d ≠ 0 →
      DataProcessor.read_size s = (d : Int) - (s.buffer.length : Int) ∧
      ∀ chunk : List Nat,
        ((DataProcessor.frame_ready (s.append chunk)).1 = true ↔
          d ≤ s.buffer.length + chunk.length)) ∧
    (∀ c, s.data_length = some 0 → s.control_length = some c →
      DataProcessor.read_size s = (c : Int) - (s.buffer.length : Int) ∧
      ∀ chunk : List Nat,
        ((DataProcessor.frame_ready (s.append chunk)).1 = true ↔
          c ≤ s.buffer.length + chunk.length)) ∧
    (s.data_length = some 0 → s.control_length = none →
      DataProcessor.read_size s = 4 - (s.buffer.length : Int) ∧
      ∀ chunk : List Nat, s.buffer.length + chunk.length < 4 →
        (DataProcessor.frame_ready (s.append chunk)).1 = false) := by
  obtain ⟨buf, run, dt, dl, cl, icf, fr⟩ := s
  have hrun' : run = true := hrun
  subst hrun'
  refine ⟨?_, ?_, ?_, ?_⟩
  · intro hdl
    have hdl' : dl = none := hdl
    subst hdl'
    refine ⟨rfl, ?_⟩
    intro chunk hlen
    have hlen' : (buf ++ chunk).length < 4 := by
      simp only [List.length_append]
      exact hlen
    unfold DataProcessor.frame_ready DataProcessor.append
    rw [if_neg true_ne_false]
    dsimp only
    rw [if_pos hlen']
  · intro d hdl hd0
    have hdl' : dl = some d := hdl
    subst hdl'
    constructor
    · show DataProcessor.read_size ⟨buf, true, dt, some d, cl, icf, fr⟩ = _
      simp only [DataProcessor.read_size]
      rw [if_pos hd0]
    · intro chunk
      unfold DataProcessor.frame_ready DataProcessor.append
        DataProcessor.frame_ready_body
      rw [if_neg true_ne_false]
      dsimp only
      rw [if_neg hd0]
      by_cases hlen : (buf ++ chunk).length < d
      · rw [if_pos hlen]
        simp only [List.length_append] at hlen
        constructor
        · intro hh
          exact Bool.noConfusion hh
        · intro hle
          exact absurd hle (by omega)
      · rw [if_neg hlen]
        simp only [List.length_append] at hlen
        exact ⟨fun _ => by omega, fun _ => rfl⟩
  · intro c hdl hcl
    have hdl' : dl = some 0 := hdl
    have hcl' : cl = some c := hcl
    subst hdl' hcl'
    refine ⟨rfl, ?_⟩
    intro chunk
    unfold DataProcessor.frame_ready DataProcessor.append
      DataProcessor.frame_ready_body DataProcessor.frame_ready_control
    rw [if_neg true_ne_false]
    dsimp only
    rw [if_pos rfl]
    by_cases hlen : (buf ++ chunk).length < c
    · rw [if_pos hlen]
      simp only [List.length_append] at hlen
      constructor
      · intro hh
        exact Bool.noConfusion hh
      · intro hle
        exact absurd hle (by omega)
    · rw [if_neg hlen]
      simp only [List.length_append] at hlen
      exact ⟨fun _ => by omega, fun _ => rfl⟩
  · intro hdl hcl
    have hdl' : dl = some 0 := hdl
    have hcl' : cl = none := hcl
    subst hdl' hcl'
    refine ⟨rfl, ?_⟩
    intro chunk hlen
    have hlen' : (buf ++ chunk).length < 4 := by
      simp only [List.length_append]
      exact hlen
    unfold DataProcessor.frame_ready DataProcessor.append
      DataProcessor.frame_ready_body
    rw [if_neg true_ne_false]
    dsimp only
    rw [if_pos rfl]
    rw [if_pos hlen']

theorem C8_amended_witness :
    (DataProcessor.init none).running = true ∧
    ((DataProcessor.init none).data_length = none →
      DataProcessor.read_size (DataProcessor.init none) =
        8 - ((DataProcessor.init none).buffer.length : Int)) :=
  ⟨rfl, fun h =>
    ((C8_read_size_amended (DataProcessor.init none) rfl).1 h).1⟩

/-! ## `content_type_payload` on well-formed Content-Type fields -/

theorem content_type_payload_none (s : DataProcessor) (X : List Nat)
    (hX : X.length < 2 ^ 32) (hdt : s.data_type = none) :
    DataProcessor.content_type_payload s
      (toBytesBE4 1 ++ (toBytesBE4 X.length ++ X)) =
      ({ s with data_type := some X }, none) := by
  have g1 : ¬((1 : Nat) ≠ FSTRM_CONTROL_FIELD_CONTENT_TYPE) := by decide
  have g2 : ¬(X.length < X.length) := Nat.lt_irrefl X.length
  simp only [DataProcessor.content_type_payload]
  rw [List.take_left' (toBytesBE4_length 1),
    List.drop_left' (toBytesBE4_length 1),
    fromBytesBE_toBytesBE4 (show (1 : Nat) < 2 ^ 32 by omega), if_neg g1,
    List.take_left' (toBytesBE4_length X.length),
    List.drop_left' (toBytesBE4_length X.length),
    fromBytesBE_toBytesBE4 hX, if_neg g2, List.take_length, hdt]

theorem content_type_payload_some (s : DataProcessor) (X dt0 : List Nat)
    (hX : X.length < 2 ^ 32) (hdt : s.data_type = some dt0) :
    DataProcessor.content_type_payload s
      (toBytesBE4 1 ++ (toBytesBE4 X.length ++ X)) =
      (if X ≠ dt0 then (s, some FstrmErr.contentTypeMismatch)
       else (s, none)) := by
  have g1 : ¬((1 : Nat) ≠ FSTRM_CONTROL_FIELD_CONTENT_TYPE) := by decide
  have g2 : ¬(X.length < X.length) := Nat.lt_irrefl X.length
  simp only [DataProcessor.content_type_payload]
  rw [List.take_left' (toBytesBE4_length 1),
    List.drop_left' (toBytesBE4_length 1),
    fromBytesBE_toBytesBE4 (show (1 : Nat) < 2 ^ 32 by omega), if_neg g1,
    List.take_left' (toBytesBE4_length X.length),
    List.drop_left' (toBytesBE4_length X.length),
    fromBytesBE_toBytesBE4 hX, if_neg g2, List.take_length, hdt]

/-! ## `process_frame` on the handshake control frames -/

theorem process_frame_ready (s : DataProcessor) (X : List Nat)
    (hrun : s.running = true) (hicf : s.is_control_frame = true)
    (hdt : s.data_type = none) (hX : X.length < 2 ^ 32)
    (hframe : s.frame =
      toBytesBE4 FSTRM_CONTROL_READY ++
        (toBytesBE4 1 ++ (toBytesBE4 X.length ++ X)))
    (a c : Bool) :
    DataProcessor.process_frame s a c =
      ({ s with data_type := some X },
       [Event.wrote
         (toBytesBE4 0 ++ toBytesBE4 (X.length + 12) ++
          toBytesBE4 FSTRM_CONTROL_ACCEPT ++
          toBytesBE4 FSTRM_CONTROL_FIELD_CONTENT_TYPE ++
          toBytesBE4 X.length ++ X)],
       none, FSTRM_CONTROL_READY) := by
  have hrun' : ¬s.running = false := by rw [hrun]; decide
  have hicf' : ¬s.is_control_frame = false := by rw [hicf]; decide
  have hct : fromBytesBE (s.frame.take 4) = FSTRM_CONTROL_READY := by
    rw [hframe, List.take_left' (toBytesBE4_length FSTRM_CONTROL_READY),
      fromBytesBE_toBytesBE4 (show FSTRM_CONTROL_READY < 2 ^ 32 by decide)]
  have hdrop : s.frame.drop 4 =
      toBytesBE4 1 ++ (toBytesBE4 X.length ++ X) := by
    rw [hframe, List.drop_left' (toBytesBE4_length FSTRM_CONTROL_READY)]
  simp only [DataProcessor.process_frame]
  rw [if_neg hrun', if_neg hicf', hct, if_pos rfl, hdrop,
    content_type_payload_none s X hX hdt]

theorem process_frame_start (s : DataProcessor) (X : List Nat)
    (hrun : s.running = true) (hicf : s.is_control_frame = true)
    (hdt : s.data_type = some X) (hX : X.length < 2 ^ 32)
    (hframe : s.frame =
      toBytesBE4 FSTRM_CONTROL_START ++
        (toBytesBE4 1 ++ (toBytesBE4 X.length ++ X)))
    (c : Bool) :
    DataProcessor.process_frame s true c =
      (s, [Event.accepted (some X)], none, FSTRM_CONTROL_START) := by
  have hrun' : ¬s.running = false := by rw [hrun]; decide
  have hicf' : ¬s.is_control_frame = false := by rw [hicf]; decide
  have hne : ¬(FSTRM_CONTROL_START = FSTRM_CONTROL_READY) := by decide
  have hxx : ¬(X ≠ X) := fun hh => hh rfl
  have hct : fromBytesBE (s.frame.take 4) = FSTRM_CONTROL_START := by
    rw [hframe, List.take_left' (toBytesBE4_length FSTRM_CONTROL_START),
      fromBytesBE_toBytesBE4 (show FSTRM_CONTROL_START < 2 ^ 32 by decide)]
  have hdrop : s.frame.drop 4 =
      toBytesBE4 1 ++ (toBytesBE4 X.length ++ X) := by
    rw [hframe, List.drop_left' (toBytesBE4_length FSTRM_CONTROL_START)]
  simp only [DataProcessor.process_frame]
  rw [if_neg hrun', if_neg hicf', hct, if_neg hne, if_pos rfl, hdrop,
    content_type_payload_some s X X hX hdt, if_neg hxx]
  dsimp only
  rw [hdt, if_pos trivial]

theorem process_frame_type_mismatch (s : DataProcessor) (X Y : List Nat)
    (ct : Nat)
    (hctd : ct = FSTRM_CONTROL_READY ∨ ct = FSTRM_CONTROL_START)
    (hrun : s.running = true) (hicf : s.is_control_frame = true)
    (hdt : s.data_type = some X) (hY : Y.length < 2 ^ 32) (hne : Y ≠ X)
    (hframe : s.frame =
      toBytesBE4 ct ++ (toBytesBE4 1 ++ (toBytesBE4 Y.length ++ Y)))
    (a c : Bool) :
    DataProcessor.process_frame s a c =
      (s, [], some FstrmErr.contentTypeMismatch, 0) := by
  have hrun' : ¬s.running = false := by rw [hrun]; decide
  have hicf' : ¬s.is_control_frame = false := by rw [hicf]; decide
  have hct32 : ct < 2 ^ 32 := by
    rcases hctd with hcc | hcc <;> subst hcc <;> decide
  have hct : fromBytesBE (s.frame.take 4) = ct := by
    rw [hframe, List.take_left' (toBytesBE4_length ct),
      fromBytesBE_toBytesBE4 hct32]
  have hdrop : s.frame.drop 4 =
      toBytesBE4 1 ++ (toBytesBE4 Y.length ++ Y) := by
    rw [hframe, List.drop_left' (toBytesBE4_length ct)]
  simp only [DataProcessor.process_frame]
  rw [if_neg hrun', if_neg hicf', hct, hdrop]
  rcases hctd with hcc | hcc
  · subst hcc
    rw [if_pos rfl, content_type_payload_some s Y X hY hdt, if_pos hne]
  · subst hcc
    have hns : ¬(FSTRM_CONTROL_START = FSTRM_CONTROL_READY) := by decide
    rw [if_neg hns, if_pos rfl, content_type_payload_some s Y X hY hdt,
      if_pos hne]

/-! ## Claim C2 -/

/-- C2: processing a READY control frame carrying content type `X` on a
connection with no negotiated type records `X` as the negotiated type and
writes exactly one ACCEPT control frame laid out as a 4-byte big-endian
zero, the 4-byte big-endian control length `|X| + 12`, control type
ACCEPT = 1, field-type id 1, the 4-byte big-endian field length `|X|`,
then the bytes of `X`; a subsequent START control frame carrying `X`
invokes `Consumer.accepted(X)` exactly once. -/
theorem C2_ready_accept_start (s s2 : DataProcessor) (X : List Nat)
    (hrun : s.running = true) (hicf : s.is_control_frame = true)
    (hdt : s.data_type = none) (hX : X.length < 2 ^ 32)
    (hframe : s.frame =
      toBytesBE4 FSTRM_CONTROL_READY ++
        (toBytesBE4 1 ++ (toBytesBE4 X.length ++ X)))
    (hrun2 : s2.running = true) (hicf2 : s2.is_control_frame = true)
    (hdt2 : s2.data_type = some X)
    (hframe2 : s2.frame =
      toBytesBE4 FSTRM_CONTROL_START ++
        (toBytesBE4 1 ++ (toBytesBE4 X.length ++ X)))
    (a c : Bool) :
    DataProcessor.process_frame s a c =
      ({ s with data_type := some X },
       [Event.wrote
         (toBytesBE4 0 ++ toBytesBE4 (X.length + 12) ++
          toBytesBE4 FSTRM_CONTROL_ACCEPT ++
          toBytesBE4 FSTRM_CONTROL_FIELD_CONTENT_TYPE ++
          toBytesBE4 X.length ++ X)],
       none, FSTRM_CONTROL_READY) ∧
    DataProcessor.process_frame s2 true c =
      (s2, [Event.accepted (some X)], none, FSTRM_CONTROL_START) :=
  ⟨process_frame_ready s X hrun hicf hdt hX hframe a c,
   process_frame_start s2 X hrun2 hicf2 hdt2 hX hframe2 c⟩

theorem C2_witness :
    DataProcessor.process_frame
      { DataProcessor.init none with
        is_control_frame := true,
        frame := toBytesBE4 FSTRM_CONTROL_READY ++
          (toBytesBE4 1 ++ (toBytesBE4 1 ++ [88])) } true true =
      ({ DataProcessor.init none with
         is_control_frame := true,
         frame := toBytesBE4 FSTRM_CONTROL_READY ++
           (toBytesBE4 1 ++ (toBytesBE4 1 ++ [88])),
         data_type := some [88] },
       [Event.wrote
         (toBytesBE4 0 ++ toBytesBE4 13 ++
          toBytesBE4 FSTRM_CONTROL_ACCEPT ++
          toBytesBE4 FSTRM_CONTROL_FIELD_CONTENT_TYPE ++
          toBytesBE4 1 ++ [88])],
       none, FSTRM_CONTROL_READY) ∧
    DataProcessor.process_frame
      { DataProcessor.init (some [88]) with
        is_control_frame := true,
        frame := toBytesBE4 FSTRM_CONTROL_START ++
          (toBytesBE4 1 ++ (toBytesBE4 1 ++ [88])) } true true =
      ({ DataProcessor.init (some [88]) with
         is_control_frame := true,
         frame := toBytesBE4 FSTRM_CONTROL_START ++
           (toBytesBE4 1 ++ (toBytesBE4 1 ++ [88])) },
       [Event.accepted (some [88])], none, FSTRM_CONTROL_START) := by
  have h := C2_ready_accept_start
    { DataProcessor.init none with
      is_control_frame := true,
      frame := toBytesBE4 FSTRM_CONTROL_READY ++
        (toBytesBE4 1 ++ (toBytesBE4 1 ++ [88])) }
    { DataProcessor.init (some [88]) with
      is_control_frame := true,
      frame := toBytesBE4 FSTRM_CONTROL_START ++
        (toBytesBE4 1 ++ (toBytesBE4 1 ++ [88])) }
    [88] rfl rfl rfl (by decide) rfl rfl rfl rfl rfl true true
  exact h

/-! ## Claim C5 -/

/-- C5: once a content type `X` is negotiated, any READY or START control
frame whose Content-Type field carries `Y ≠ X` fails with
`ContentTypeMismatchError`; the negotiated type stays `X`, nothing is
written, and `Consumer.accepted` is not invoked. -/
theorem C5_type_mismatch (s : DataProcessor) (X Y : List Nat) (ct : Nat)
    (hctd : ct = FSTRM_CONTROL_READY ∨ ct = FSTRM_CONTROL_START)
    (hrun : s.running = true) (hicf : s.is_control_frame = true)
    (hdt : s.data_type = some X) (hY : Y.length < 2 ^ 32) (hne : Y ≠ X)
    (hframe : s.frame =
      toBytesBE4 ct ++ (toBytesBE4 1 ++ (toBytesBE4 Y.length ++ Y)))
    (a c : Bool) :
    DataProcessor.process_frame s a c =
      (s, [], some FstrmErr.contentTypeMismatch, 0) ∧
    (DataProcessor.process_frame s a c).1.data_type = some X := by
  have h := process_frame_type_mismatch s X Y ct hctd hrun hicf hdt hY hne
    hframe a c
  exact ⟨h, by rw [h]; exact hdt⟩

theorem C5_witness :
    DataProcessor.process_frame
      { DataProcessor.init (some [88]) with
        is_control_frame := true,
        frame := toBytesBE4 FSTRM_CONTROL_START ++
          (toBytesBE4 1 ++ (toBytesBE4 1 ++ [89])) } true true =
      ({ DataProcessor.init (some [88]) with
         is_control_frame := true,
         frame := toBytesBE4 FSTRM_CONTROL_START ++
           (toBytesBE4 1 ++ (toBytesBE4 1 ++ [89])) },
       [], some FstrmErr.contentTypeMismatch, 0) := by
  have h := C5_type_mismatch
    { DataProcessor.init (some [88]) with
      is_control_frame := true,
      frame := toBytesBE4 FSTRM_CONTROL_START ++
        (toBytesBE4 1 ++ (toBytesBE4 1 ++ [89])) }
    [88] [89] FSTRM_CONTROL_START (Or.inr rfl) rfl rfl rfl (by decide)
    (by decide) rfl true true
  exact h.1

/-! ## Claim C6 -/

/-- C6 counterexample: a Data frame arriving on a fresh connection —
before any READY or START control frame has been processed and with no
content type negotiated — is nevertheless delivered to
`Consumer.consume`. -/
theorem C6_counterexample :
    ((DataProcessor.frame_ready
        ((DataProcessor.init none).append [0, 0, 0, 3, 1, 2, 3])).2).data_type
      = none ∧
    ((DataProcessor.frame_ready
        ((DataProcessor.init none).append
          [0, 0, 0, 3, 1, 2, 3])).2).is_control_frame = false ∧
    (DataProcessor.process_frame
        (DataProcessor.frame_ready
          ((DataProcessor.init none).append [0, 0, 0, 3, 1, 2, 3])).2
        true true).2.1 = [Event.consumed [1, 2, 3]] := by
  decide

/-- C6 (amended): `process_frame` keeps no handshake state.  Whenever the
processor is running, a Data frame is passed to `Consumer.consume`
regardless of whether a START control frame has ever been processed; the
only gate on delivery is the `running` flag. -/
theorem C6_data_always_consumed (s : DataProcessor)
    (hrun : s.running = true) (hicf : s.is_control_frame = false)
    (a c : Bool) :
    (DataProcessor.process_frame s a c).2.1 = [Event.consumed s.frame] ∧
    (DataProcessor.process_frame s a c).2.2.1 = none := by
  have hrun' : ¬s.running = false := by rw [hrun]; decide
  simp only [DataProcessor.process_frame]
  rw [if_neg hrun', if_pos hicf]
  exact ⟨rfl, rfl⟩

theorem C6_amended_witness :
    (DataProcessor.process_frame
      { DataProcessor.init none with frame := [7, 8] } true true).2.1 =
      [Event.consumed [7, 8]] :=
  (C6_data_always_consumed
    { DataProcessor.init none with frame := [7, 8] } rfl rfl true true).1

/-! ## Claim C10 -/

/-- C10: a READY or START control frame whose payload after the control
type does not begin with a Content-Type field header — the 4-byte
field-type read yields a value other than 1, as with an empty payload —
raises `FieldTypeMismatchError` instead of accepting the frame, so a
Content-Type field is in practice mandatory. -/
theorem C10_content_type_mandatory (s : DataProcessor) (rest : List Nat)
    (ct : Nat)
    (hctd : ct = FSTRM_CONTROL_READY ∨ ct = FSTRM_CONTROL_START)
    (hrun : s.running = true) (hicf : s.is_control_frame = true)
    (hft : fromBytesBE (rest.take 4) ≠ FSTRM_CONTROL_FIELD_CONTENT_TYPE)
    (hframe : s.frame = toBytesBE4 ct ++ rest) (a c : Bool) :
    DataProcessor.process_frame s a c =
      (s, [], some FstrmErr.fieldTypeMismatch, 0) ∧
    (DataProcessor.process_frame s a c).1.data_type = s.data_type := by
  have hrun' : ¬s.running = false := by rw [hrun]; decide
  have hicf' : ¬s.is_control_frame = false := by rw [hicf]; decide
  have hct32 : ct < 2 ^ 32 := by
    rcases hctd with hcc | hcc <;> subst hcc <;> decide
  have hct : fromBytesBE (s.frame.take 4) = ct := by
    rw [hframe, List.take_left' (toBytesBE4_length ct),
      fromBytesBE_toBytesBE4 hct32]
  have hdrop : s.frame.drop 4 = rest := by
    rw [hframe, List.drop_left' (toBytesBE4_length ct)]
  have hctp : DataProcessor.content_type_payload s rest =
      (s, some FstrmErr.fieldTypeMismatch) := by
    simp only [DataProcessor.content_type_payload]
    rw [if_pos hft]
  have hmain : DataProcessor.process_frame s a c =
      (s, [], some FstrmErr.fieldTypeMismatch, 0) := by
    simp only [DataProcessor.process_frame]
    rw [if_neg hrun', if_neg hicf', hct, hdrop]
    rcases hctd with hcc | hcc
    · subst hcc
      rw [if_pos rfl, hctp]
    · subst hcc
      have hns : ¬(FSTRM_CONTROL_START = FSTRM_CONTROL_READY) := by decide
      rw [if_neg hns, if_pos rfl, hctp]
  exact ⟨hmain, by rw [hmain]⟩

theorem C10_witness :
    DataProcessor.process_frame
      { DataProcessor.init none with
        is_control_frame := true,
        frame := toBytesBE4 FSTRM_CONTROL_READY } true true =
      ({ DataProcessor.init none with
         is_control_frame := true,
         frame := toBytesBE4 FSTRM_CONTROL_READY },
       [], some FstrmErr.fieldTypeMismatch, 0) := by
  have h := C10_content_type_mandatory
    { DataProcessor.init none with
      is_control_frame := true,
      frame := toBytesBE4 FSTRM_CONTROL_READY }
    [] FSTRM_CONTROL_READY (Or.inl rfl) rfl rfl (by decide)
    (by simp) true true
  exact h.1

/-! ## protobuf.py: bit-manipulation bridges

Python computes with `&`, `|`, `<<`, `>>` on nonnegative ints; these
lemmas relate the corresponding `Nat` operations to arithmetic. -/

theorem and_127 (x : Nat) : x &&& 127 = x % 128 :=
  Nat.and_pow_two_sub_one_eq_mod x 7

theorem and_255 (x : Nat) : x &&& 255 = x % 256 :=
  Nat.and_pow_two_sub_one_eq_mod x 8

theorem and_7 (x : Nat) : x &&& 7 = x % 8 :=
  Nat.and_pow_two_sub_one_eq_mod x 3

theorem shiftr_3 (x : Nat) : x >>> 3 = x / 8 := by
  rw [Nat.shiftRight_eq_div_pow]

theorem and_128_of_lt {v : Nat} (h : v < 128) : v &&& 128 = 0 := by
  have h1 := Nat.and_two_pow v 7
  rw [Nat.testBit_lt_two_pow (lt_of_lt_of_eq h (by norm_num))] at h1
  simpa using h1

theorem and_128_cont (v : Nat) : (v % 128 + 128) &&& 128 ≠ 0 := by
  have h1 := Nat.and_two_pow (v % 128 + 128) 7
  rw [Nat.testBit_to_div_mod] at h1
  have h2 : (v % 128 + 128) / 2 ^ 7 = 1 := by
    have he : (2 : Nat) ^ 7 = 128 := by norm_num
    rw [he]
    omega
  rw [h2] at h1
  norm_num at h1
  intro hc
  omega

theorem shiftl7_or_eq (a b : Nat) (h : b < 128) :
    a <<< 7 ||| b = 128 * a + b := by
  have h2 : b < 2 ^ 7 := lt_of_lt_of_eq h (by norm_num)
  rw [Nat.shiftLeft_eq, Nat.mul_comm a (2 ^ 7), ← Nat.mul_add_lt_is_or h2 a]

theorem shiftl8_or_eq (a b : Nat) (h : b < 256) :
    a <<< 8 ||| b = 256 * a + b := by
  have h2 : b < 2 ^ 8 := lt_of_lt_of_eq h (by norm_num)
  rw [Nat.shiftLeft_eq, Nat.mul_comm a (2 ^ 8), ← Nat.mul_add_lt_is_or h2 a]

/-! ## protobuf.py: field primitives -/

/-- Values produced by the protobuf field decoders.  The base-class `m2i`
is the identity, so length-delimited and fixed-width fields carry raw
byte slices; varint fields carry naturals, signed varint fields carry
integers, and the fall-through branch of `getfield` for an unhandled wire
type returns the empty string. -/
inductive PVal where
  | bytes (b : List Nat)
  | nat (v : Nat)
  | int (i : Int)
  | str0
  deriving DecidableEq, Repr

namespace ProtobufField

/-- The group-collection loop of `ProtobufField.get_varint`: consume
bytes, keeping the low 7 bits of each, until a byte with the continuation
bit `0x80` clear or the end of input.  Returns (groups, rest). -/
def get_varint_groups : List Nat → List Nat × List Nat
  | [] => ([], [])
  | byte :: s =>
    if byte &&& 0x80 ≠ 0 then
      ((byte &&& 0x7f) :: (get_varint_groups s).1, (get_varint_groups s).2)
    else ([byte &&& 0x7f], s)

/-- The accumulation loop of `get_varint`: pop groups from the end,
shifting 7 bits per group, so the first group is least significant. -/
def pop_accum : List Nat → Nat
  | [] => 0
  | [g] => g
  | g :: g2 :: gs => pop_accum (g2 :: gs) <<< 7 ||| g

/-- Embeds `ProtobufField.get_varint`.  On empty input Python raises
`IndexError` from `bytes.pop()`; that case is `none`. -/
def get_varint (s : List Nat) : Option (List Nat × Nat) :=
  match s with
  | [] => none
  | _ :: _ =>
    some ((get_varint_groups s).2, pop_accum (get_varint_groups s).1)

/-- Embeds `ProtobufField.get_field_header`. -/
def get_field_header (s : List Nat) : Option (List Nat × Nat × Nat) :=
  match get_varint s with
  | none => none
  | some (s1, header) => some (s1, header >>> 3, header &&& 0x07)

/-- Embeds the base-class `ProtobufField.getfield` (no id check; `m2i` is
the identity, so values are raw slices or the varint integer; the
`set_format` bookkeeping has no observable effect and is omitted). -/
def getfield (s : List Nat) : Option (List Nat × PVal) :=
  match get_field_header s with
  | none => none
  | some (s1, _, wtype) =>
    if wtype = 2 then
      match get_varint s1 with
      | none => none
      | some (s2, l) => some (s2.drop l, .bytes (s2.take l))
    else if wtype = 0 then
      match get_varint s1 with
      | none => none
      | some (s2, v) => some (s2, .nat v)
    else if wtype = 1 then some (s1.drop 8, .bytes (s1.take 8))
    else if wtype = 5 then some (s1.drop 4, .bytes (s1.take 4))
    else some (s1, .str0)

end ProtobufField

namespace ProtobufVarintField

/-- Embeds `ProtobufVarintField.svi2si`, the signed-varint decoder. -/
def svi2si (v : Nat) : Int :=
  if v &&& 0x01 ≠ 0 then -(((v >>> 1 : Nat) : Int) + 1)
  else ((v >>> 1 : Nat) : Int)

end ProtobufVarintField

namespace ProtobufFixedIntField

/-- Embeds `ProtobufFixedIntField.m2i`: little-endian accumulation from
the last byte down.  Python raises `IndexError` on an empty slice;
modeled as `none`. -/
def m2i : List Nat → Option Nat
  | [] => none
  | [x] => some (x &&& 0xff)
  | x :: y :: rest =>
    match m2i (y :: rest) with
    | none => none
    | some acc => some (acc <<< 8 ||| (x &&& 0xff))

end ProtobufFixedIntField

/-! ## Canonical wire encoders (from the wire-format specification) -/

/-- Canonical LEB128 varint encoding, written with explicit fuel so that
it computes by structural recursion (`v` itself bounds the recursion
depth). -/
def encode_varint_go : Nat → Nat → List Nat
  | 0, v => [v]
  | fuel + 1, v =>
    if v < 128 then [v] else (v % 128 + 128) :: encode_varint_go fuel (v / 128)

def encode_varint (v : Nat) : List Nat :=
  encode_varint_go v v

/-- Canonical little-endian fixed-width encoding of `v` on `k` bytes. -/
def toBytesLE : Nat → Nat → List Nat
  | 0, _ => []
  | k + 1, v => (v % 256) :: toBytesLE k (v / 256)

/-- Canonical signed-varint (zig-zag) encoding of an integer, the inverse
of `svi2si`. -/
def zigzag (i : Int) : Nat :=
  if 0 ≤ i then (2 * i).toNat else (-2 * i - 1).toNat

theorem encode_varint_go_ne_nil (fuel v : Nat) :
    encode_varint_go fuel v ≠ [] := by
  cases fuel with
  | zero => simp [encode_varint_go]
  | succ f => by_cases h : v < 128 <;> simp [encode_varint_go, h]

theorem get_varint_groups_ne_nil {s : List Nat} (h : s ≠ []) :
    (ProtobufField.get_varint_groups s).1 ≠ [] := by
  cases s with
  | nil => exact absurd rfl h
  | cons b t =>
    by_cases hb : b &&& 128 ≠ 0 <;>
      simp [ProtobufField.get_varint_groups, hb]

theorem groups_encode :
    ∀ (fuel v : Nat), v ≤ fuel → ∀ rest : List Nat,
      (ProtobufField.get_varint_groups
        (encode_varint_go fuel v ++ rest)).2 = rest ∧
      ProtobufField.pop_accum
        (ProtobufField.get_varint_groups
          (encode_varint_go fuel v ++ rest)).1 = v := by
  intro fuel
  induction fuel with
  | zero =>
    intro v hv rest
    have hv0 : v = 0 := Nat.le_zero.mp hv
    subst hv0
    constructor <;>
      simp [encode_varint_go, ProtobufField.get_varint_groups,
        ProtobufField.pop_accum]
  | succ fuel ih =>
    intro v hv rest
    by_cases hsmall : v < 128
    · have h1 : v &&& 128 = 0 := and_128_of_lt hsmall
      have h2 : v &&& 127 = v := by
        rw [and_127]
        exact Nat.mod_eq_of_lt hsmall
      simp only [encode_varint_go, if_pos hsmall, List.singleton_append]
      constructor <;>
        simp [ProtobufField.get_varint_groups, h1, h2,
          ProtobufField.pop_accum]
    · obtain ⟨hg2, hg1⟩ := ih (v / 128) (by omega) rest
      have hcont : (v % 128 + 128) &&& 128 ≠ 0 := and_128_cont v
      have h127 : (v % 128 + 128) &&& 127 = v % 128 := by
        rw [and_127]
        omega
      simp only [encode_varint_go, if_neg hsmall, List.cons_append]
      constructor
      · simp only [ProtobufField.get_varint_groups, if_pos hcont]
        exact hg2
      · simp only [ProtobufField.get_varint_groups, if_pos hcont, h127]
        have hgs : (ProtobufField.get_varint_groups
            (encode_varint_go fuel (v / 128) ++ rest)).1 ≠ [] :=
          get_varint_groups_ne_nil (fun hh =>
            encode_varint_go_ne_nil fuel (v / 128)
              (List.append_eq_nil.mp hh).1)
        obtain ⟨g, gs, hgg⟩ := List.exists_cons_of_ne_nil hgs
        rw [hgg,
          show ProtobufField.pop_accum (v % 128 :: g :: gs) =
            ProtobufField.pop_accum (g :: gs) <<< 7 ||| v % 128 from rfl,
          ← hgg, hg1, shiftl7_or_eq _ _ (by omega)]
        omega

theorem get_varint_encode (v : Nat) (rest : List Nat) :
    ProtobufField.get_varint (encode_varint v ++ rest) = some (rest, v) := by
  obtain ⟨h2', h1'⟩ := groups_encode v v le_rfl rest
  have h2 : (ProtobufField.get_varint_groups
      (encode_varint v ++ rest)).2 = rest := h2'
  have h1 : ProtobufField.pop_accum
      (ProtobufField.get_varint_groups (encode_varint v ++ rest)).1 = v := h1'
  obtain ⟨x, xs, hxx⟩ : ∃ x xs, encode_varint v ++ rest = x :: xs := by
    cases hgo : encode_varint v with
    | nil => exact absurd hgo (encode_varint_go_ne_nil v v)
    | cons y ys => exact ⟨y, ys ++ rest, rfl⟩
  rw [hxx] at h1 h2 ⊢
  simp only [ProtobufField.get_varint]
  rw [h1, h2]

theorem svi2si_zigzag (i : Int) : ProtobufVarintField.svi2si (zigzag i) = i := by
  unfold ProtobufVarintField.svi2si
  rw [Nat.and_one_is_mod, Nat.shiftRight_eq_div_pow, pow_one]
  unfold zigzag
  by_cases h : 0 ≤ i
  · rw [if_pos h]
    split_ifs with hodd
    · exfalso
      omega
    · omega
  · rw [if_neg h]
    split_ifs with hodd
    · omega
    · exfalso
      omega

theorem m2i_toBytesLE :
    ∀ (k v : Nat), v < 256 ^ (k + 1) →
      ProtobufFixedIntField.m2i (toBytesLE (k + 1) v) = some v := by
  intro k
  induction k with
  | zero =>
    intro v hv
    have hv' : v < 256 := by
      have : (256 : Nat) ^ (0 + 1) = 256 := by norm_num
      omega
    show ProtobufFixedIntField.m2i [v % 256] = some v
    simp only [ProtobufFixedIntField.m2i, and_255]
    congr 1
    omega
  | succ k ih =>
    intro v hv
    have hp : (256 : Nat) ^ (k + 1 + 1) = 256 ^ (k + 1) * 256 := pow_succ _ _
    have htail := ih (v / 256) (by
      rw [hp] at hv
      exact Nat.div_lt_of_lt_mul (by omega))
    show ProtobufFixedIntField.m2i
      ((v % 256) :: toBytesLE (k + 1) (v / 256)) = some v
    rw [show toBytesLE (k + 1) (v / 256) =
      (v / 256 % 256) :: toBytesLE k (v / 256 / 256) from rfl] at htail ⊢
    rw [show ProtobufFixedIntField.m2i
        ((v % 256) :: (v / 256 % 256) :: toBytesLE k (v / 256 / 256)) =
      (match ProtobufFixedIntField.m2i
          ((v / 256 % 256) :: toBytesLE k (v / 256 / 256)) with
       | none => none
       | some acc => some (acc <<< 8 ||| (v % 256 &&& 255))) from rfl]
    rw [htail]
    dsimp only
    rw [show (v % 256) &&& 255 = v % 256 % 256 from and_255 (v % 256)]
    rw [shiftl8_or_eq (v / 256) (v % 256 % 256) (by omega)]
    congr 1
    omega

theorem getfield_bytes (idn : Nat) (b rest : List Nat) :
    ProtobufField.getfield
      (encode_varint (idn * 8 + 2) ++
        (encode_varint b.length ++ (b ++ rest))) =
      some (rest, PVal.bytes b) := by
  have h1 := get_varint_encode (idn * 8 + 2)
    (encode_varint b.length ++ (b ++ rest))
  have hw : (idn * 8 + 2) &&& 7 = 2 :=
    (Nat.and_pow_two_sub_one_eq_mod (idn * 8 + 2) 3).trans (by omega)
  unfold ProtobufField.getfield ProtobufField.get_field_header
  rw [h1]
  dsimp only
  rw [hw, if_pos rfl, get_varint_encode b.length (b ++ rest)]
  dsimp only
  rw [List.take_left, List.drop_left]

/-! ## Claim C3 -/

/-- C3: for every value of each primitive kind — unsigned varint, signed
varint, fixed32, fixed64, length-delimited bytes — the corresponding
decoder (`get_varint`; `svi2si` composed with `get_varint`;
`ProtobufFixedIntField.m2i`; the wire-type-2 branch of `getfield`)
recovers the value from its canonical wire encoding and consumes exactly
the encoded bytes. -/
theorem C3_primitive_roundtrip (u : Nat) (i : Int) (v32 v64 idn : Nat)
    (b rest r2 r3 : List Nat) (h32 : v32 < 2 ^ 32) (h64 : v64 < 2 ^ 64) :
    ProtobufField.get_varint (encode_varint u ++ rest) = some (rest, u) ∧
    (ProtobufField.get_varint (encode_varint (zigzag i) ++ r2) =
        some (r2, zigzag i) ∧
      ProtobufVarintField.svi2si (zigzag i) = i) ∧
    ProtobufFixedIntField.m2i (toBytesLE 4 v32) = some v32 ∧
    ProtobufFixedIntField.m2i (toBytesLE 8 v64) = some v64 ∧
    ProtobufField.getfield
        (encode_varint (idn * 8 + 2) ++
          (encode_varint b.length ++ (b ++ r3))) =
      some (r3, PVal.bytes b) := by
  refine ⟨get_varint_encode u rest,
    ⟨get_varint_encode (zigzag i) r2, svi2si_zigzag i⟩, ?_, ?_,
    getfield_bytes idn b r3⟩
  · exact m2i_toBytesLE 3 v32 (by norm_num at h32 ⊢; omega)
  · exact m2i_toBytesLE 7 v64 (by norm_num at h64 ⊢; omega)

theorem C3_witness :
    (2 ^ 31 + 7 < 2 ^ 32 ∧ 2 ^ 63 + 9 < 2 ^ 64) ∧
    ProtobufField.get_varint (encode_varint 300 ++ [9]) = some ([9], 300) ∧
    ProtobufVarintField.svi2si (zigzag (-5)) = -5 ∧
    ProtobufFixedIntField.m2i (toBytesLE 4 (2 ^ 31 + 7)) =
      some (2 ^ 31 + 7) ∧
    ProtobufFixedIntField.m2i (toBytesLE 8 (2 ^ 63 + 9)) =
      some (2 ^ 63 + 9) ∧
    ProtobufField.getfield
        (encode_varint (3 * 8 + 2) ++
          (encode_varint ([1, 2] : List Nat).length ++ ([1, 2] ++ []))) =
      some ([], PVal.bytes [1, 2]) := by
  have h := C3_primitive_roundtrip 300 (-5) (2 ^ 31 + 7) (2 ^ 63 + 9) 3
    [1, 2] [9] [] [] (by norm_num) (by norm_num)
  exact ⟨⟨by norm_num, by norm_num⟩, h.1, h.2.1.2, h.2.2.1, h.2.2.2.1,
    h.2.2.2.2⟩

/-! ## Claim C4 -/

/-- C4 counterexample: `get_varint` silently returns a value both on a
truncated varint (input ends with the continuation bit set) and after
consuming more than 10 LEB128 groups; it raises no error in either
case. -/
theorem C4_counterexample :
    ProtobufField.get_varint [128] = some ([], 0) ∧
    ProtobufField.get_varint (List.replicate 10 128 ++ [1]) =
      some ([], 1180591620717411303424) := by
  decide

/-- C4 (amended): the varint reader performs no overflow or truncation
checking.  It consumes LEB128 groups until a byte with the continuation
bit clear or the end of input and returns the accumulated value — even
when more than 10 groups were consumed or the input ended mid-varint; the
only failing input is the empty slice, where Python raises `IndexError`
from `bytes.pop()`. -/
theorem C4_no_malformed_rejection (s : List Nat) :
    (ProtobufField.get_varint s).isSome ↔ s ≠ [] := by
  cases s <;> simp [ProtobufField.get_varint]

/-! ## protobuf.py: `Protobuf.do_dissect` and unknown-field handling

The dissection loop of `Protobuf.do_dissect` is embedded with explicit
state passing.  The field classes relevant at the top level of a message
are modeled by `FieldKind`: `PbAnyField` (also the class of the dummy
fields synthesized for unknown ids), `PbBytesField` (without
`length_from` / override class), the unsigned and signed varint classes,
and `PbFixed32Field`.  `ProtobufEmbeddedField` (recursive dissection) is
outside the scope of the claims treated here.

Python dictionaries (`fields_by_id`, `fields`) are modeled as
association lists with first-match lookup and in-place update
(`alist_lookup` / `alist_update`), which matches dict semantics when, as
here, every insertion goes through `alist_update`.  The keys of
`fields_by_id` are either a field id (`pb_id`, an `Option Nat`, since
Python stores `None` as a key when `pb_id is None`) or a field name
(`DummyField` stores the synthesized field under its *name*); this is
the sum type `FKey`.  Python's in-place mutation of the shared field
object (`self.pb_id = id` inside `getfield`) is rendered by writing the
updated field instance back under the key it was found or stored
under. -/

inductive FieldKind where
  | anyF
  | bytesF
  | uvarint
  | svarint
  | fixed32
  deriving DecidableEq, Repr

/-- A protobuf field instance: the constructor arguments of
`ProtobufField.__init__` that the dissector observes (`pb_default` never
is), plus the class tag. -/
structure FieldInst where
  pb_name : String
  pb_id : Option Nat
  pb_multi : Bool
  kind : FieldKind
  deriving DecidableEq, Repr

/-- Exceptions raised during dissection.  `indexError` is Python's
`IndexError` from `bytes.pop()` on an empty slice (and from indexing an
empty slice in `m2i`); `attributeError` is the `AttributeError` raised
when a multi-occurring field appends to a non-list entry.  `outOfFuel`
is an artifact of the explicit fuel; every loop iteration consumes at
least one byte, so with fuel `s.length` it is unreachable. -/
inductive PbErr where
  | indexError
  | fieldIDMismatch
  | fieldTypeMismatch
  | attributeError
  | outOfFuel
  deriving DecidableEq, Repr

/-- An entry of `Protobuf.fields`: a single value, or the Python list
accumulated for a `pb_multi` field. -/
inductive Stored where
  | one (v : PVal)
  | many (vs : List PVal)
  deriving DecidableEq, Repr

def alist_lookup {α β : Type} [DecidableEq α] : List (α × β) → α → Option β
  | [], _ => none
  | (k, v) :: rest, q => if q = k then some v else alist_lookup rest q

def alist_update {α β : Type} [DecidableEq α] :
    List (α × β) → α → β → List (α × β)
  | [], k, v => [(k, v)]
  | (k0, v0) :: rest, k, v =>
    if k = k0 then (k, v) :: rest else (k0, v0) :: alist_update rest k v

/-- Key type of `fields_by_id`: `Sum.inl` a `pb_id` (possibly `None`),
`Sum.inr` a field name (used by `DummyField`). -/
abbrev FKey := Option Nat ⊕ String

/-- The `Protobuf` packet state mutated by `do_dissect` (the components
it reads or writes; `fields_by_name` and the repr bookkeeping are never
touched by dissection). -/
structure Protobuf where
  fields_by_id : List (FKey × FieldInst)
  fields : List (String × Stored)
  fields_seen : List (FieldInst × Option Nat)
  dummy_count : Nat
  deriving DecidableEq, Repr

/-- `Protobuf.__init__`: `fields_by_id = { f.pb_id: f for f in
self.fields_desc }` (later descriptors overwrite earlier ones, as in a
dict comprehension), empty `fields`/`fields_seen`, `dummy_count = 0`. -/
def mkProtobuf (desc : List FieldInst) : Protobuf :=
  { fields_by_id :=
      desc.foldl (fun acc f => alist_update acc (Sum.inl f.pb_id) f) []
    fields := []
    fields_seen := []
    dummy_count := 0 }

/-- The name `"(unknown_%d)" % (self.dummy_count,)` given to a dummy
field. -/
def unknownName (n : Nat) : String :=
  "(unknown_" ++ Nat.repr n ++ ")"

/-- `Protobuf.DummyField`: bump `dummy_count`, make a `PbAnyField` with
the synthesized name (no id, not multi), and store it in `fields_by_id`
under its *name*. -/
def DummyField (p : Protobuf) : Protobuf × FieldInst :=
  let f : FieldInst := ⟨unknownName (p.dummy_count + 1), none, false, .anyF⟩
  ({ p with
      dummy_count := p.dummy_count + 1
      fields_by_id := alist_update p.fields_by_id (Sum.inr f.pb_name) f },
    f)

/-- The shared id bookkeeping at the top of every `getfield`: if
`self.pb_id is None` set it to the id just read, otherwise
`check_field_id` raises `FieldIDMismatchError` unless they agree. -/
def check_or_set_id (f : FieldInst) (idn : Nat) : Except PbErr FieldInst :=
  match f.pb_id with
  | none => Except.ok { f with pb_id := some idn }
  | some i =>
    if idn = i then Except.ok f else Except.error PbErr.fieldIDMismatch

/-- `field.getfield(pkt, s)` for each modeled field class: reads the
field header, runs the id check, then dispatches on the class and the
wire type exactly as the Python bodies do.  Returns the updated field
instance (Python mutates it in place), the remaining stream, and the
decoded value. -/
def inst_getfield (f : FieldInst) (s : List Nat) :
    Except PbErr (FieldInst × List Nat × PVal) :=
  match ProtobufField.get_field_header s with
  | none => Except.error PbErr.indexError
  | some (s1, idn, wtype) =>
    match check_or_set_id f idn with
    | Except.error e => Except.error e
    | Except.ok f' =>
      match f'.kind with
      | .anyF =>
        if wtype = 2 then
          match ProtobufField.get_varint s1 with
          | none => Except.error PbErr.indexError
          | some (s2, l) => Except.ok (f', s2.drop l, .bytes (s2.take l))
        else if wtype = 0 then
          match ProtobufField.get_varint s1 with
          | none => Except.error PbErr.indexError
          | some (s2, v) => Except.ok (f', s2, .nat v)
        else if wtype = 1 then Except.ok (f', s1.drop 8, .bytes (s1.take 8))
        else if wtype = 5 then Except.ok (f', s1.drop 4, .bytes (s1.take 4))
        else Except.ok (f', s1, .str0)
      | .bytesF =>
        if wtype = 2 then
          match ProtobufField.get_varint s1 with
          | none => Except.error PbErr.indexError
          | some (s2, l) => Except.ok (f', s2.drop l, .bytes (s2.take l))
        else Except.error PbErr.fieldTypeMismatch
      | .uvarint =>
        if wtype = 0 then
          match ProtobufField.get_varint s1 with
          | none => Except.error PbErr.indexError
          | some (s2, v) => Except.ok (f', s2, .nat v)
        else Except.error PbErr.fieldTypeMismatch
      | .svarint =>
        if wtype = 0 then
          match ProtobufField.get_varint s1 with
          | none => Except.error PbErr.indexError
          | some (s2, v) =>
            Except.ok (f', s2, .int (ProtobufVarintField.svi2si v))
        else Except.error PbErr.fieldTypeMismatch
      | .fixed32 =>
        if wtype = 5 then
          match ProtobufFixedIntField.m2i (s1.take 4) with
          | none => Except.error PbErr.indexError
          | some v => Except.ok (f', s1.drop 4, .nat v)
        else Except.error PbErr.fieldTypeMismatch

/-- The value-storing tail of a `do_dissect` iteration: append to the
list for a `pb_multi` field (initializing it on first sight; appending
to an existing non-list entry is Python's `AttributeError`), otherwise
overwrite `fields[pb_name]`; record the occurrence in `fields_seen`. -/
def store (p : Protobuf) (f : FieldInst) (v : PVal) : Except PbErr Protobuf :=
  if f.pb_multi then
    match alist_lookup p.fields f.pb_name with
    | none =>
      Except.ok { p with
        fields := alist_update p.fields f.pb_name (Stored.many [v])
        fields_seen := p.fields_seen ++ [(f, some 0)] }
    | some (Stored.many vs) =>
      Except.ok { p with
        fields := alist_update p.fields f.pb_name (Stored.many (vs ++ [v]))
        fields_seen := p.fields_seen ++ [(f, some vs.length)] }
    | some (Stored.one _) => Except.error PbErr.attributeError
  else
    Except.ok { p with
      fields := alist_update p.fields f.pb_name (Stored.one v)
      fields_seen := p.fields_seen ++ [(f, none)] }

/-- Write `fields_by_id` back (the rendering of Python's in-place
mutation of the shared field object). -/
def set_fbi (p : Protobuf) (d : List (FKey × FieldInst)) : Protobuf :=
  { p with fields_by_id := d }

/-- The `while s:` loop of `Protobuf.do_dissect`, with explicit fuel:
peek at the field header for the id, look the id up in `fields_by_id`
(an integer key, hence `Sum.inl (some idn)`), falling back to
`DummyField`; run the field's `getfield`; write the (possibly mutated)
field instance back under its key; store the value. -/
def do_dissect_go (fuel : Nat) (p : Protobuf) (s : List Nat) :
    Except PbErr Protobuf :=
  match s with
  | [] => Except.ok p
  | byte :: s0 =>
    match fuel with
    | 0 => Except.error PbErr.outOfFuel
    | fuel + 1 =>
      match ProtobufField.get_field_header (byte :: s0) with
      | none => Except.error PbErr.indexError
      | some (_, idn, _) =>
        match alist_lookup p.fields_by_id (Sum.inl (some idn)) with
        | some f =>
          match inst_getfield f (byte :: s0) with
          | Except.error e => Except.error e
          | Except.ok (f', s', v) =>
            match store
                (set_fbi p
                  (alist_update p.fields_by_id (Sum.inl (some idn)) f'))
                f' v with
            | Except.error e => Except.error e
            | Except.ok p2 => do_dissect_go fuel p2 s'
        | none =>
          match DummyField p with
          | (p1, f) =>
            match inst_getfield f (byte :: s0) with
            | Except.error e => Except.error e
            | Except.ok (f', s', v) =>
              match store
                  (set_fbi p1
                    (alist_update p1.fields_by_id (Sum.inr f.pb_name) f'))
                  f' v with
              | Except.error e => Except.error e
              | Except.ok p2 => do_dissect_go fuel p2 s'

/-- `Protobuf.do_dissect(s)`: the loop consumes at least one byte per
iteration, so `s.length` bounds the iteration count. -/
def do_dissect (p : Protobuf) (s : List Nat) : Except PbErr Protobuf :=
  do_dissect_go s.length p s

/-! ### Canonical field encodings (from the wire-format specification) -/

/-- A field as written by a canonical encoder: a varint field, a
length-delimited bytes field, or a 32-bit fixed-width field. -/
inductive FieldWrite where
  | wvarint (idn : Nat) (v : Nat)
  | wbytes (idn : Nat) (b : List Nat)
  | wfixed32 (idn : Nat) (v : Nat)
  deriving DecidableEq, Repr

def idOf : FieldWrite → Nat
  | .wvarint idn _ => idn
  | .wbytes idn _ => idn
  | .wfixed32 idn _ => idn

def wtypeOf : FieldWrite → Nat
  | .wvarint _ _ => 0
  | .wbytes _ _ => 2
  | .wfixed32 _ _ => 5

/-- Canonical tag: the varint of `id <<s 3 | wire_type`. -/
def encTag (idn w : Nat) : List Nat :=
  encode_varint (idn * 8 + w)

def encWrite : FieldWrite → List Nat
  | .wvarint idn v => encTag idn 0 ++ encode_varint v
  | .wbytes idn b => encTag idn 2 ++ (encode_varint b.length ++ b)
  | .wfixed32 idn v => encTag idn 5 ++ toBytesLE 4 v

def encMsg (ws : List FieldWrite) : List Nat :=
  (ws.map encWrite).flatten

/-- Does a field class accept this wire type without raising
`FieldTypeMismatchError`?  (`PbAnyField` dissects every wire type.) -/
def kindAccepts : FieldKind → Nat → Bool
  | .anyF, _ => true
  | .bytesF, w => w == 2
  | .uvarint, w => w == 0
  | .svarint, w => w == 0
  | .fixed32, w => w == 5

/-- Fixed32 writes must fit in 32 bits for the canonical 4-byte encoding
to round-trip. -/
def w32OK : FieldWrite → Bool
  | .wfixed32 _ v => decide (v < 2 ^ 32)
  | _ => true

/-- The value each field class decodes from the canonical encoding of a
write. -/
def valOf (k : FieldKind) : FieldWrite → PVal
  | .wvarint _ v =>
    match k with
    | .svarint => .int (ProtobufVarintField.svi2si v)
    | _ => .nat v
  | .wbytes _ b => .bytes b
  | .wfixed32 _ v =>
    match k with
    | .anyF => .bytes (toBytesLE 4 v)
    | _ => .nat v

/-- A write is schema-known for a `fields_by_id` table: its id maps to a
field whose declared id agrees, whose class accepts the wire type, and
(for fixed32) whose value fits. -/
def wOK (d : List (FKey × FieldInst)) (w : FieldWrite) : Bool :=
  match alist_lookup d (Sum.inl (some (idOf w))) with
  | none => false
  | some f =>
    decide (f.pb_id = some (idOf w)) && kindAccepts f.kind (wtypeOf w) &&
      w32OK w

/-! ### Association-list and encoder lemmas -/

theorem alist_lookup_update {α β : Type} [DecidableEq α]
    (l : List (α × β)) (k : α) (v : β) (q : α) :
    alist_lookup (alist_update l k v) q =
      if q = k then some v else alist_lookup l q := by
  induction l with
  | nil =>
    by_cases h : q = k <;> simp [alist_update, alist_lookup, h]
  | cons e rest ih =>
    obtain ⟨k0, v0⟩ := e
    by_cases h0 : k = k0
    · subst h0
      by_cases h : q = k <;> simp [alist_update, alist_lookup, h]
    · rw [show alist_update ((k0, v0) :: rest) k v =
        (k0, v0) :: alist_update rest k v from if_neg h0]
      by_cases h : q = k0
      · have hqk : ¬(q = k) := fun hqk => h0 (hqk.symm.trans h)
        rw [show alist_lookup ((k0, v0) :: alist_update rest k v) q =
          some v0 from if_pos h, if_neg hqk,
          show alist_lookup ((k0, v0) :: rest) q = some v0 from if_pos h]
      · rw [show alist_lookup ((k0, v0) :: alist_update rest k v) q =
          alist_lookup (alist_update rest k v) q from if_neg h,
          show alist_lookup ((k0, v0) :: rest) q = alist_lookup rest q from
            if_neg h, ih]

theorem alist_update_self {α β : Type} [DecidableEq α]
    (l : List (α × β)) (k : α) (v : β) (h : alist_lookup l k = some v) :
    alist_update l k v = l := by
  induction l with
  | nil => exact Option.noConfusion h
  | cons e rest ih =>
    obtain ⟨k0, v0⟩ := e
    by_cases h0 : k = k0
    · subst h0
      rw [show alist_lookup ((k, v0) :: rest) k = some v0 from if_pos rfl]
        at h
      rw [show alist_update ((k, v0) :: rest) k v = (k, v) :: rest from
        if_pos rfl]
      rw [Option.some.injEq] at h
      rw [h]
    · rw [show alist_lookup ((k0, v0) :: rest) k = alist_lookup rest k from
        if_neg h0] at h
      rw [show alist_update ((k0, v0) :: rest) k v =
        (k0, v0) :: alist_update rest k v from if_neg h0, ih h]

theorem alist_update_update {α β : Type} [DecidableEq α]
    (l : List (α × β)) (k : α) (v v' : β) :
    alist_update (alist_update l k v) k v' = alist_update l k v' := by
  induction l with
  | nil => simp [alist_update]
  | cons e rest ih =>
    obtain ⟨k0, v0⟩ := e
    by_cases h0 : k = k0
    · subst h0
      simp [alist_update]
    · rw [show alist_update ((k0, v0) :: rest) k v =
        (k0, v0) :: alist_update rest k v from if_neg h0]
      rw [show alist_update ((k0, v0) :: alist_update rest k v) k v' =
        (k0, v0) :: alist_update (alist_update rest k v) k v' from
        if_neg h0]
      rw [show alist_update ((k0, v0) :: rest) k v' =
        (k0, v0) :: alist_update rest k v' from if_neg h0, ih]

theorem alist_lookup_mem {α β : Type} [DecidableEq α]
    (l : List (α × β)) (k : α) (v : β) (h : alist_lookup l k = some v) :
    (k, v) ∈ l := by
  induction l with
  | nil => exact Option.noConfusion h
  | cons e rest ih =>
    obtain ⟨k0, v0⟩ := e
    by_cases h0 : k = k0
    · subst h0
      rw [show alist_lookup ((k, v0) :: rest) k = some v0 from if_pos rfl]
        at h
      rw [Option.some.injEq] at h
      subst h
      exact List.mem_cons_self _ _
    · rw [show alist_lookup ((k0, v0) :: rest) k = alist_lookup rest k from
        if_neg h0] at h
      exact List.mem_cons_of_mem _ (ih h)

theorem toBytesLE_length (k v : Nat) : (toBytesLE k v).length = k := by
  induction k generalizing v with
  | zero => rfl
  | succ k ih =>
    show ((v % 256) :: toBytesLE k (v / 256)).length = k + 1
    rw [List.length_cons, ih]

theorem get_field_header_encTag (idn w : Nat) (hw : w < 8)
    (rest : List Nat) :
    ProtobufField.get_field_header (encTag idn w ++ rest) =
      some (rest, idn, w) := by
  unfold ProtobufField.get_field_header encTag
  rw [get_varint_encode]
  dsimp only
  have h1 : (idn * 8 + w) / 8 = idn := by omega
  have h2 : (idn * 8 + w) % 8 = w := by omega
  rw [shiftr_3, and_7, h1, h2]

theorem encWrite_ne_nil (w : FieldWrite) : encWrite w ≠ [] := by
  cases w <;>
    · intro h
      exact encode_varint_go_ne_nil _ _ (List.append_eq_nil.mp h).1

theorem encMsg_cons (w : FieldWrite) (ws : List FieldWrite) :
    encMsg (w :: ws) = encWrite w ++ encMsg ws := by
  simp [encMsg]

theorem encMsg_append (xs ys : List FieldWrite) :
    encMsg (xs ++ ys) = encMsg xs ++ encMsg ys := by
  simp [encMsg]

theorem length_le_encMsg (ws : List FieldWrite) :
    ws.length ≤ (encMsg ws).length := by
  induction ws with
  | nil => simp [encMsg]
  | cons w t ih =>
    rw [encMsg_cons, List.length_append, List.length_cons]
    have hp : 0 < (encWrite w).length :=
      List.length_pos.mpr (encWrite_ne_nil w)
    omega

/-- The non-multi branch of `store` as a state transformer. -/
def store1 (p : Protobuf) (f : FieldInst) (v : PVal) : Protobuf :=
  { p with
    fields := alist_update p.fields f.pb_name (Stored.one v)
    fields_seen := p.fields_seen ++ [(f, none)] }

theorem store_nonmulti (p : Protobuf) (f : FieldInst) (v : PVal)
    (hm : f.pb_multi = false) :
    store p f v = Except.ok (store1 p f v) := by
  unfold store store1
  rw [hm]
  rw [if_neg (by decide)]

theorem get_field_header_encWrite (w : FieldWrite) (rest : List Nat) :
    ∃ t, ProtobufField.get_field_header (encWrite w ++ rest) =
      some (t, idOf w, wtypeOf w) := by
  cases w <;>
    · dsimp only [encWrite, idOf, wtypeOf]
      rw [List.append_assoc]
      exact ⟨_, get_field_header_encTag _ _ (by norm_num) _⟩

/-- A schema field whose declared id matches the tag and whose class
accepts the wire type dissects the canonical encoding of a write without
error or mutation, consumes exactly the encoded bytes, and produces
`valOf`. -/
theorem inst_getfield_encWrite (f : FieldInst) (w : FieldWrite)
    (hid : f.pb_id = some (idOf w))
    (hacc : kindAccepts f.kind (wtypeOf w) = true)
    (h32 : w32OK w = true) (rest : List Nat) :
    inst_getfield f (encWrite w ++ rest) =
      Except.ok (f, rest, valOf f.kind w) := by
  obtain ⟨name, pid, mlt, knd⟩ := f
  have hid' : pid = some (idOf w) := hid
  subst hid'
  cases w with
  | wvarint idn v =>
    dsimp only [idOf, wtypeOf, encWrite] at hacc ⊢
    rw [List.append_assoc]
    unfold inst_getfield
    rw [get_field_header_encTag idn 0 (by norm_num) (encode_varint v ++ rest)]
    dsimp only [check_or_set_id]
    rw [if_pos rfl]
    dsimp only
    cases knd with
    | anyF =>
      rw [if_neg (by decide), if_pos rfl, get_varint_encode v rest]
      rfl
    | bytesF => exact absurd hacc (by decide)
    | uvarint =>
      rw [if_pos rfl, get_varint_encode v rest]
      rfl
    | svarint =>
      rw [if_pos rfl, get_varint_encode v rest]
      rfl
    | fixed32 => exact absurd hacc (by decide)
  | wbytes idn b =>
    dsimp only [idOf, wtypeOf, encWrite] at hacc ⊢
    rw [List.append_assoc, List.append_assoc]
    unfold inst_getfield
    rw [get_field_header_encTag idn 2 (by norm_num)
      (encode_varint b.length ++ (b ++ rest))]
    dsimp only [check_or_set_id]
    rw [if_pos rfl]
    dsimp only
    cases knd with
    | anyF =>
      rw [if_pos rfl, get_varint_encode b.length (b ++ rest)]
      dsimp only
      rw [List.take_left, List.drop_left]
      rfl
    | bytesF =>
      rw [if_pos rfl, get_varint_encode b.length (b ++ rest)]
      dsimp only
      rw [List.take_left, List.drop_left]
      rfl
    | uvarint => exact absurd hacc (by decide)
    | svarint => exact absurd hacc (by decide)
    | fixed32 => exact absurd hacc (by decide)
  | wfixed32 idn v =>
    dsimp only [w32OK] at h32
    have hv : v < 2 ^ 32 := of_decide_eq_true h32
    have hv4 : v < 256 ^ (3 + 1) := by
      have he : (256 : Nat) ^ (3 + 1) = 2 ^ 32 := by norm_num
      omega
    dsimp only [idOf, wtypeOf, encWrite] at hacc ⊢
    rw [List.append_assoc]
    unfold inst_getfield
    rw [get_field_header_encTag idn 5 (by norm_num) (toBytesLE 4 v ++ rest)]
    dsimp only [check_or_set_id]
    rw [if_pos rfl]
    dsimp only
    cases knd with
    | anyF =>
      rw [if_neg (by decide), if_neg (by decide), if_neg (by decide),
        if_pos rfl, List.take_left' (toBytesLE_length 4 v),
        List.drop_left' (toBytesLE_length 4 v)]
      rfl
    | bytesF => exact absurd hacc (by decide)
    | uvarint => exact absurd hacc (by decide)
    | svarint => exact absurd hacc (by decide)
    | fixed32 =>
      rw [if_pos rfl, List.take_left' (toBytesLE_length 4 v),
        List.drop_left' (toBytesLE_length 4 v),
        m2i_toBytesLE 3 v hv4]
      rfl

/-- One `do_dissect` iteration over the canonical encoding of a
schema-known, non-repeated write: the state change is exactly a `store1`
of the decoded value, and `fields_by_id` is untouched. -/
theorem do_dissect_go_known (fuel : Nat) (p : Protobuf) (w : FieldWrite)
    (rest : List Nat) (f : FieldInst)
    (hlook : alist_lookup p.fields_by_id (Sum.inl (some (idOf w))) = some f)
    (hid : f.pb_id = some (idOf w))
    (hacc : kindAccepts f.kind (wtypeOf w) = true)
    (h32 : w32OK w = true)
    (hm : f.pb_multi = false) :
    do_dissect_go (fuel + 1) p (encWrite w ++ rest) =
      do_dissect_go fuel (store1 p f (valOf f.kind w)) rest := by
  obtain ⟨t, ht⟩ := get_field_header_encWrite w rest
  obtain ⟨x, xs, hx⟩ : ∃ x xs, encWrite w ++ rest = x :: xs := by
    cases he : encWrite w with
    | nil => exact absurd he (encWrite_ne_nil w)
    | cons y ys => exact ⟨y, ys ++ rest, by simp [he]⟩
  rw [hx]
  unfold do_dissect_go
  dsimp only
  rw [← hx, ht]
  dsimp only
  rw [hlook]
  dsimp only
  rw [inst_getfield_encWrite f w hid hacc h32 rest]
  dsimp only
  rw [alist_update_self _ _ _ hlook,
    store_nonmulti _ _ _ hm]
  dsimp only
  rw [show set_fbi p p.fields_by_id = p from rfl]
  conv_lhs => unfold do_dissect_go


/-- `DummyField`'s `dummy_count` bump. -/
def bump_dummy (p : Protobuf) : Protobuf :=
  { p with dummy_count := p.dummy_count + 1 }

/-- One `do_dissect` iteration over an unknown (schema-absent) id with a
canonical length-delimited encoding: a dummy `PbAnyField` is
synthesized, stored in `fields_by_id` under its *name* (and, after the
in-place `pb_id` mutation, carrying the numeric id), and the raw bytes
are stored in `fields` under the synthesized name. -/
theorem do_dissect_go_unknown (fuel : Nat) (p : Protobuf) (idu : Nat)
    (bu : List Nat) (rest : List Nat)
    (hlook : alist_lookup p.fields_by_id (Sum.inl (some idu)) = none) :
    do_dissect_go (fuel + 1) p
        (encWrite (FieldWrite.wbytes idu bu) ++ rest) =
      do_dissect_go fuel
        (store1
          (set_fbi (bump_dummy p)
            (alist_update p.fields_by_id
              (Sum.inr (unknownName (p.dummy_count + 1)))
              ⟨unknownName (p.dummy_count + 1), some idu, false,
                FieldKind.anyF⟩))
          ⟨unknownName (p.dummy_count + 1), some idu, false, FieldKind.anyF⟩
          (PVal.bytes bu)) rest := by
  have hinst : inst_getfield
      ⟨unknownName (p.dummy_count + 1), none, false, FieldKind.anyF⟩
      (encWrite (FieldWrite.wbytes idu bu) ++ rest) =
      Except.ok (⟨unknownName (p.dummy_count + 1), some idu, false,
        FieldKind.anyF⟩, rest, PVal.bytes bu) := by
    dsimp only [encWrite]
    rw [List.append_assoc, List.append_assoc]
    unfold inst_getfield
    rw [get_field_header_encTag idu 2 (by norm_num)
      (encode_varint bu.length ++ (bu ++ rest))]
    dsimp only [check_or_set_id]
    rw [if_pos rfl, get_varint_encode bu.length (bu ++ rest)]
    dsimp only
    rw [List.take_left, List.drop_left]
  obtain ⟨t, ht⟩ := get_field_header_encWrite (FieldWrite.wbytes idu bu) rest
  dsimp only [idOf, wtypeOf] at ht
  obtain ⟨x, xs, hx⟩ :
      ∃ x xs, encWrite (FieldWrite.wbytes idu bu) ++ rest = x :: xs := by
    cases he : encWrite (FieldWrite.wbytes idu bu) with
    | nil => exact absurd he (encWrite_ne_nil _)
    | cons y ys => exact ⟨y, ys ++ rest, by simp [he]⟩
  rw [hx]
  unfold do_dissect_go
  dsimp only
  rw [← hx, ht]
  dsimp only
  rw [hlook]
  simp only [DummyField]
  rw [hinst]
  dsimp only
  rw [alist_update_update,
    store_nonmulti _ _ _ rfl]
  dsimp only
  conv_lhs => unfold do_dissect_go
  rfl


theorem do_dissect_go_nil (fuel : Nat) (p : Protobuf) :
    do_dissect_go fuel p [] = Except.ok p := by
  cases fuel <;> rfl

theorem wOK_elim {d : List (FKey × FieldInst)} {w : FieldWrite}
    (h : wOK d w = true) :
    ∃ f, alist_lookup d (Sum.inl (some (idOf w))) = some f ∧
      f.pb_id = some (idOf w) ∧ kindAccepts f.kind (wtypeOf w) = true ∧
      w32OK w = true := by
  unfold wOK at h
  cases hl : alist_lookup d (Sum.inl (some (idOf w))) with
  | none =>
    rw [hl] at h
    exact Bool.noConfusion h
  | some f =>
    rw [hl] at h
    dsimp only at h
    rw [Bool.and_eq_true, Bool.and_eq_true] at h
    obtain ⟨⟨h1a, h1b⟩, h3⟩ := h
    exact ⟨f, rfl, of_decide_eq_true h1a, h1b, h3⟩

/-- Dissecting the canonical encoding of a list of schema-known,
non-repeated writes consumes exactly those bytes, leaves `fields_by_id`
and `dummy_count` unchanged, and continues on the remaining input with
one fuel unit spent per write — uniformly in the continuation. -/
theorem run_known_writes (A : List FieldWrite) :
    ∀ (p : Protobuf),
      (∀ w ∈ A, wOK p.fields_by_id w = true) →
      (∀ e ∈ p.fields_by_id, e.2.pb_multi = false) →
      ∃ p', p'.fields_by_id = p.fields_by_id ∧
        p'.dummy_count = p.dummy_count ∧
        ∀ (rest : List Nat) (fuel : Nat), A.length ≤ fuel →
          do_dissect_go fuel p (encMsg A ++ rest) =
            do_dissect_go (fuel - A.length) p' rest := by
  induction A with
  | nil =>
    intro p _ _
    refine ⟨p, rfl, rfl, fun rest fuel _ => ?_⟩
    rw [show encMsg [] ++ rest = rest from rfl, List.length_nil,
      Nat.sub_zero]
  | cons w A' ih =>
    intro p hok hmult
    obtain ⟨f, hl, hid, hacc, h32⟩ :=
      wOK_elim (hok w (List.mem_cons_self _ _))
    have hmf : f.pb_multi = false := hmult _ (alist_lookup_mem _ _ _ hl)
    have hok' : ∀ w' ∈ A',
        wOK (store1 p f (valOf f.kind w)).fields_by_id w' = true :=
      fun w' hw' => hok w' (List.mem_cons_of_mem _ hw')
    have hmult' : ∀ e ∈ (store1 p f (valOf f.kind w)).fields_by_id,
        e.2.pb_multi = false := hmult
    obtain ⟨p', hfb, hdc, hrun⟩ := ih (store1 p f (valOf f.kind w)) hok' hmult'
    refine ⟨p', hfb, hdc, fun rest fuel hfuel => ?_⟩
    rw [List.length_cons] at hfuel
    cases fuel with
    | zero => omega
    | succ F =>
      rw [encMsg_cons, List.append_assoc,
        do_dissect_go_known F p w (encMsg A' ++ rest) f hl hid hacc h32 hmf,
        hrun rest F (by omega)]
      have harith : F - A'.length = F + 1 - (w :: A').length := by
        rw [List.length_cons]
        omega
      rw [harith]

/-- Lockstep dissection of schema-known, non-repeated writes from two
states that agree on all id-keyed descriptor lookups and on every
`fields` entry other than the reserved first dummy name: both runs
succeed, neither touches `fields_by_id`, the agreement on other names is
preserved, and the entry under the dummy name is untouched. -/
theorem run_pair (B : List FieldWrite) :
    ∀ (p q : Protobuf),
      (∀ w ∈ B, wOK q.fields_by_id w = true) →
      (∀ k, alist_lookup p.fields_by_id (Sum.inl k) =
        alist_lookup q.fields_by_id (Sum.inl k)) →
      (∀ e ∈ q.fields_by_id, e.2.pb_multi = false ∧
        e.2.pb_name ≠ unknownName 1) →
      (∀ name, name ≠ unknownName 1 →
        alist_lookup p.fields name = alist_lookup q.fields name) →
      ∀ (fuel fq : Nat), B.length ≤ fuel → B.length ≤ fq →
      ∃ p' q',
        do_dissect_go fuel p (encMsg B) = Except.ok p' ∧
        do_dissect_go fq q (encMsg B) = Except.ok q' ∧
        p'.fields_by_id = p.fields_by_id ∧
        (∀ name, name ≠ unknownName 1 →
          alist_lookup p'.fields name = alist_lookup q'.fields name) ∧
        alist_lookup p'.fields (unknownName 1) =
          alist_lookup p.fields (unknownName 1) := by
  induction B with
  | nil =>
    intro p q _ _ _ hf fuel fq _ _
    refine ⟨p, q, ?_, ?_, rfl, hf, rfl⟩
    · rw [show encMsg ([] : List FieldWrite) = [] from rfl,
        do_dissect_go_nil]
    · rw [show encMsg ([] : List FieldWrite) = [] from rfl,
        do_dissect_go_nil]
  | cons w B' ih =>
    intro p q hok hpq hq hf fuel fq hfu hfq
    obtain ⟨f, hlq, hid, hacc, h32⟩ :=
      wOK_elim (hok w (List.mem_cons_self _ _))
    have hlp : alist_lookup p.fields_by_id (Sum.inl (some (idOf w))) =
        some f := (hpq _).trans hlq
    obtain ⟨hmf, hname⟩ := hq _ (alist_lookup_mem _ _ _ hlq)
    rw [List.length_cons] at hfu hfq
    cases fuel with
    | zero => omega
    | succ F =>
      cases fq with
      | zero => omega
      | succ G =>
        have hok' : ∀ w' ∈ B',
            wOK (store1 q f (valOf f.kind w)).fields_by_id w' = true :=
          fun w' hw' => hok w' (List.mem_cons_of_mem _ hw')
        have hpq' : ∀ k,
            alist_lookup (store1 p f (valOf f.kind w)).fields_by_id
              (Sum.inl k) =
            alist_lookup (store1 q f (valOf f.kind w)).fields_by_id
              (Sum.inl k) := hpq
        have hq' : ∀ e ∈ (store1 q f (valOf f.kind w)).fields_by_id,
            e.2.pb_multi = false ∧ e.2.pb_name ≠ unknownName 1 := hq
        have hf' : ∀ name, name ≠ unknownName 1 →
            alist_lookup (store1 p f (valOf f.kind w)).fields name =
            alist_lookup (store1 q f (valOf f.kind w)).fields name := by
          intro name hne
          show alist_lookup
              (alist_update p.fields f.pb_name
                (Stored.one (valOf f.kind w))) name =
            alist_lookup
              (alist_update q.fields f.pb_name
                (Stored.one (valOf f.kind w))) name
          rw [alist_lookup_update, alist_lookup_update]
          by_cases hn : name = f.pb_name
          · rw [if_pos hn, if_pos hn]
          · rw [if_neg hn, if_neg hn]
            exact hf name hne
        obtain ⟨p', q', hP, hQ, hPfb, hPeq, hPu⟩ :=
          ih (store1 p f (valOf f.kind w)) (store1 q f (valOf f.kind w))
            hok' hpq' hq' hf' F G (by omega) (by omega)
        refine ⟨p', q', ?_, ?_, hPfb, hPeq, ?_⟩
        · rw [encMsg_cons,
            do_dissect_go_known F p w (encMsg B') f hlp hid hacc h32 hmf]
          exact hP
        · rw [encMsg_cons,
            do_dissect_go_known G q w (encMsg B') f hlq hid hacc h32 hmf]
          exact hQ
        · refine hPu.trans ?_
          show alist_lookup
              (alist_update p.fields f.pb_name
                (Stored.one (valOf f.kind w))) (unknownName 1) =
            alist_lookup p.fields (unknownName 1)
          rw [alist_lookup_update,
            if_neg (fun hh => hname hh.symm)]

/-! ## Claim C7 -/

/-- C7 counterexample: a message whose only field has id 99, absent from
the schema, dissects without error — but the raw value is stored under
the synthesized *name* `"(unknown_1)"` (both in `fields` and as the key
of the dummy entry in `fields_by_id`), and looking the value up by the
numeric field id 99 finds nothing: `99 in fields_by_id` is false in the
resulting state, so the unknown field is not retrievable by its numeric
field id. -/
theorem C7_counterexample :
    do_dissect (mkProtobuf [⟨"identity", some 1, false, FieldKind.bytesF⟩])
        (encMsg [FieldWrite.wbytes 99 [7, 7]]) =
      Except.ok
        { fields_by_id := [(Sum.inl (some 1),
            ⟨"identity", some 1, false, FieldKind.bytesF⟩),
            (Sum.inr "(unknown_1)",
            ⟨"(unknown_1)", some 99, false, FieldKind.anyF⟩)]
          fields := [("(unknown_1)", Stored.one (PVal.bytes [7, 7]))]
          fields_seen := [(⟨"(unknown_1)", some 99, false, FieldKind.anyF⟩,
            none)]
          dummy_count := 1 } ∧
    alist_lookup
        [(Sum.inl (some 1), (⟨"identity", some 1, false,
            FieldKind.bytesF⟩ : FieldInst)),
          (Sum.inr "(unknown_1)",
            ⟨"(unknown_1)", some 99, false, FieldKind.anyF⟩)]
        (Sum.inl (some 99)) = none := by
  exact ⟨rfl, by decide⟩

/-- C7 (amended): for a message consisting of canonical encodings of
schema-known, non-repeated fields plus one field whose id is absent
from the schema, dissection succeeds without error; every schema-known
field decodes to exactly the value it would have if the unknown field
were absent; and the unknown field's raw value is retained — but under
the synthesized dummy name `"(unknown_1)"`, with the numeric id
recorded only on the synthesized field instance, and *not* retrievable
by numeric field id: the id-keyed lookup in `fields_by_id` still
fails. -/
theorem C7_unknown_field_amended (desc : List FieldInst)
    (A B : List FieldWrite) (idu : Nat) (bu : List Nat)
    (hA : ∀ w ∈ A, wOK (mkProtobuf desc).fields_by_id w = true)
    (hB : ∀ w ∈ B, wOK (mkProtobuf desc).fields_by_id w = true)
    (hdesc : ∀ e ∈ (mkProtobuf desc).fields_by_id,
      e.2.pb_multi = false ∧ e.2.pb_name ≠ unknownName 1)
    (hunk : alist_lookup (mkProtobuf desc).fields_by_id
      (Sum.inl (some idu)) = none) :
    ∃ p' q',
      do_dissect (mkProtobuf desc)
        (encMsg (A ++ FieldWrite.wbytes idu bu :: B)) = Except.ok p' ∧
      do_dissect (mkProtobuf desc) (encMsg (A ++ B)) = Except.ok q' ∧
      (∀ name, name ≠ unknownName 1 →
        alist_lookup p'.fields name = alist_lookup q'.fields name) ∧
      alist_lookup p'.fields (unknownName 1) =
        some (Stored.one (PVal.bytes bu)) ∧
      alist_lookup p'.fields_by_id (Sum.inl (some idu)) = none ∧
      alist_lookup p'.fields_by_id (Sum.inr (unknownName 1)) =
        some ⟨unknownName 1, some idu, false, FieldKind.anyF⟩ := by
  obtain ⟨pA, hfbA, hdcA, hrunA⟩ := run_known_writes A (mkProtobuf desc) hA
    (fun e he => (hdesc e he).1)
  have hdc0 : pA.dummy_count = 0 := hdcA
  have hlenA := length_le_encMsg A
  have hlenB := length_le_encMsg B
  have hlenu : 0 < (encWrite (FieldWrite.wbytes idu bu)).length :=
    List.length_pos.mpr (encWrite_ne_nil _)
  have hL1 : A.length + (B.length + 1) ≤
      (encMsg A ++
        (encWrite (FieldWrite.wbytes idu bu) ++ encMsg B)).length := by
    rw [List.length_append, List.length_append]
    omega
  have hL2 : A.length + B.length ≤ (encMsg A ++ encMsg B).length := by
    rw [List.length_append]
    omega
  obtain ⟨F1, hF1⟩ : ∃ F1,
      (encMsg A ++
        (encWrite (FieldWrite.wbytes idu bu) ++ encMsg B)).length -
        A.length = F1 + 1 :=
    ⟨(encMsg A ++
        (encWrite (FieldWrite.wbytes idu bu) ++ encMsg B)).length -
        A.length - 1, by omega⟩
  have hlookA : alist_lookup pA.fields_by_id (Sum.inl (some idu)) = none := by
    rw [hfbA]
    exact hunk
  have hokB : ∀ w ∈ B, wOK pA.fields_by_id w = true := by
    intro w hw
    rw [hfbA]
    exact hB w hw
  have hqdescA : ∀ e ∈ pA.fields_by_id, e.2.pb_multi = false ∧
      e.2.pb_name ≠ unknownName 1 := by
    intro e he
    rw [hfbA] at he
    exact hdesc e he
  have hpqU : ∀ k,
      alist_lookup (store1 (set_fbi (bump_dummy pA)
        (alist_update pA.fields_by_id (Sum.inr (unknownName 1))
          ⟨unknownName 1, some idu, false, FieldKind.anyF⟩))
        ⟨unknownName 1, some idu, false, FieldKind.anyF⟩
        (PVal.bytes bu)).fields_by_id (Sum.inl k) =
      alist_lookup pA.fields_by_id (Sum.inl k) := by
    intro k
    show alist_lookup (alist_update pA.fields_by_id
      (Sum.inr (unknownName 1))
      ⟨unknownName 1, some idu, false, FieldKind.anyF⟩) (Sum.inl k) = _
    rw [alist_lookup_update, if_neg (fun h => Sum.noConfusion h)]
  have hfU : ∀ name, name ≠ unknownName 1 →
      alist_lookup (store1 (set_fbi (bump_dummy pA)
        (alist_update pA.fields_by_id (Sum.inr (unknownName 1))
          ⟨unknownName 1, some idu, false, FieldKind.anyF⟩))
        ⟨unknownName 1, some idu, false, FieldKind.anyF⟩
        (PVal.bytes bu)).fields name =
      alist_lookup pA.fields name := by
    intro name hne
    show alist_lookup (alist_update pA.fields (unknownName 1)
      (Stored.one (PVal.bytes bu))) name = _
    rw [alist_lookup_update, if_neg hne]
  obtain ⟨p', q', hP, hQ, hPfb, hPeq, hPu⟩ :=
    run_pair B
      (store1 (set_fbi (bump_dummy pA)
        (alist_update pA.fields_by_id (Sum.inr (unknownName 1))
          ⟨unknownName 1, some idu, false, FieldKind.anyF⟩))
        ⟨unknownName 1, some idu, false, FieldKind.anyF⟩
        (PVal.bytes bu))
      pA hokB hpqU hqdescA hfU F1
      ((encMsg A ++ encMsg B).length - A.length) (by omega) (by omega)
  refine ⟨p', q', ?_, ?_, hPeq, ?_, ?_, ?_⟩
  · show do_dissect_go (encMsg (A ++ FieldWrite.wbytes idu bu :: B)).length
      (mkProtobuf desc) (encMsg (A ++ FieldWrite.wbytes idu bu :: B)) =
      Except.ok p'
    rw [show encMsg (A ++ FieldWrite.wbytes idu bu :: B) =
      encMsg A ++ (encWrite (FieldWrite.wbytes idu bu) ++ encMsg B) from
      by rw [encMsg_append, encMsg_cons]]
    rw [hrunA (encWrite (FieldWrite.wbytes idu bu) ++ encMsg B) _
      (by omega), hF1,
      do_dissect_go_unknown F1 pA idu bu (encMsg B) hlookA, hdc0,
      Nat.zero_add]
    exact hP
  · show do_dissect_go (encMsg (A ++ B)).length (mkProtobuf desc)
      (encMsg (A ++ B)) = Except.ok q'
    rw [encMsg_append, hrunA (encMsg B) _ (by omega)]
    exact hQ
  · refine hPu.trans ?_
    show alist_lookup (alist_update pA.fields (unknownName 1)
      (Stored.one (PVal.bytes bu))) (unknownName 1) = _
    rw [alist_lookup_update, if_pos rfl]
  · rw [hPfb]
    show alist_lookup (alist_update pA.fields_by_id
      (Sum.inr (unknownName 1))
      ⟨unknownName 1, some idu, false, FieldKind.anyF⟩)
      (Sum.inl (some idu)) = none
    rw [alist_lookup_update, if_neg (fun h => Sum.noConfusion h), hfbA]
    exact hunk
  · rw [hPfb]
    show alist_lookup (alist_update pA.fields_by_id
      (Sum.inr (unknownName 1))
      ⟨unknownName 1, some idu, false, FieldKind.anyF⟩)
      (Sum.inr (unknownName 1)) = _
    rw [alist_lookup_update, if_pos rfl]

theorem C7_amended_witness :
    (∀ w ∈ ([] : List FieldWrite),
      wOK (mkProtobuf [⟨"identity", some 1, false,
        FieldKind.bytesF⟩]).fields_by_id w = true) ∧
    (∀ w ∈ [FieldWrite.wbytes 1 [5]],
      wOK (mkProtobuf [⟨"identity", some 1, false,
        FieldKind.bytesF⟩]).fields_by_id w = true) ∧
    (∀ e ∈ (mkProtobuf [⟨"identity", some 1, false,
        FieldKind.bytesF⟩]).fields_by_id,
      e.2.pb_multi = false ∧ e.2.pb_name ≠ unknownName 1) ∧
    alist_lookup (mkProtobuf [⟨"identity", some 1, false,
      FieldKind.bytesF⟩]).fields_by_id (Sum.inl (some 99)) = none ∧
    (∃ p' q',
      do_dissect (mkProtobuf [⟨"identity", some 1, false,
          FieldKind.bytesF⟩])
        (encMsg ([] ++ FieldWrite.wbytes 99 [7, 7] ::
          [FieldWrite.wbytes 1 [5]])) = Except.ok p' ∧
      do_dissect (mkProtobuf [⟨"identity", some 1, false,
          FieldKind.bytesF⟩])
        (encMsg ([] ++ [FieldWrite.wbytes 1 [5]])) = Except.ok q' ∧
      (∀ name, name ≠ unknownName 1 →
        alist_lookup p'.fields name = alist_lookup q'.fields name) ∧
      alist_lookup p'.fields (unknownName 1) =
        some (Stored.one (PVal.bytes [7, 7])) ∧
      alist_lookup p'.fields_by_id (Sum.inl (some 99)) = none ∧
      alist_lookup p'.fields_by_id (Sum.inr (unknownName 1)) =
        some ⟨unknownName 1, some 99, false, FieldKind.anyF⟩) := by
  have h1 : ∀ w ∈ ([] : List FieldWrite),
      wOK (mkProtobuf [⟨"identity", some 1, false,
        FieldKind.bytesF⟩]).fields_by_id w = true :=
    fun w hw => absurd hw (List.not_mem_nil w)
  have h2 : ∀ w ∈ [FieldWrite.wbytes 1 [5]],
      wOK (mkProtobuf [⟨"identity", some 1, false,
        FieldKind.bytesF⟩]).fields_by_id w = true := by
    intro w hw
    rw [List.mem_singleton] at hw
    subst hw
    decide
  have h3 : ∀ e ∈ (mkProtobuf [⟨"identity", some 1, false,
      FieldKind.bytesF⟩]).fields_by_id,
      e.2.pb_multi = false ∧ e.2.pb_name ≠ unknownName 1 := by
    intro e he
    rw [show (mkProtobuf [(⟨"identity", some 1, false,
        FieldKind.bytesF⟩ : FieldInst)]).fields_by_id =
      [(Sum.inl (some 1), ⟨"identity", some 1, false, FieldKind.bytesF⟩)]
      from rfl] at he
    rw [List.mem_singleton] at he
    subst he
    exact ⟨rfl, by decide⟩
  exact ⟨h1, h2, h3, by decide,
    C7_unknown_field_amended [⟨"identity", some 1, false, FieldKind.bytesF⟩]
      [] [FieldWrite.wbytes 1 [5]] 99 [7, 7] h1 h2 h3 (by decide)⟩

end Shodohflo
